import Mathlib

/-!
Verification of the GRID_POWER_STREAM Bronze→Silver→Gold pipeline core.

The definitions below are a shallow embedding of the Python sources:

* `src/functions/shared/transformations/data_quality.py`
  (`NullStrategy`, `apply_quality_rules` over a columnar DataFrame);
* `src/functions/shared/transformations/rte_silver.py`,
  `era5_silver.py`, `capacity_silver.py` (deduplication and the
  relative order of the dedup and quality stages);
* `src/functions/shared/asset_lifecycle.py` (`check_staleness`);
* `src/functions/shared/gold/dim_loader.py` and
  `src/functions/shared/gold/fact_loader.py` (dimension upserts,
  fact upsert keyed by `(id_date, id_region, id_source)`).

Modelling conventions:
* a polars `DataFrame` is a list of named columns, each a list of
  optional values (`none` = null cell); machine floats are modelled
  as rationals;
* SQL tables are lists of rows, AUTOINCREMENT ids come from an
  explicit counter carried in the database state;
* `datetime.fromisoformat` (standard library, outside the repo) is
  abstracted as an oracle `parse_ok : String → Bool` deciding which
  timestamp strings parse; no claim depends on which strings do;
* Python exceptions surface as `Except String`.
-/

/-- A scalar cell value of a polars column (floats modelled as `ℚ`). -/
inductive Val where
  | num (q : ℚ)
  | str (s : String)
  | bool (b : Bool)
deriving DecidableEq, Repr

/-- A cell: `none` is a polars null. -/
abbrev Cell := Option Val

/-- A columnar DataFrame: named columns of cells. -/
structure DF where
  cols : List (String × List Cell)
deriving DecidableEq, Repr

/-- `df.columns` in polars. -/
def colNames (df : DF) : List String :=
  df.cols.map (·.1)

/-- The cells of column `c` (`[]` when the column is absent). -/
def getColD (df : DF) (c : String) : List Cell :=
  (((df.cols.find? (fun p => p.1 = c)).map (·.2)).getD [])

/-- `len(df)`: the height of the frame (length of its first column). -/
def height (df : DF) : Nat :=
  match df.cols with
  | [] => 0
  | p :: _ => p.2.length

/-- Cell of column `c` at row `i` (null when out of range or absent). -/
def cellAt (df : DF) (c : String) (i : Nat) : Cell :=
  ((getColD df c).get? i).getD none

/-- `Series.null_count()`. -/
def null_count (col : List Cell) : Nat :=
  (col.filter (fun c => decide (c = none))).length

/-- Null-handling strategy (`NullStrategy` in `data_quality.py`). -/
inductive NullStrategy where
  | drop
  | fill_zero
  | forward_fill
  | flag
deriving DecidableEq, Repr

/-- `RTE_QUALITY_RULES` from `data_quality.py`. -/
def RTE_QUALITY_RULES : List (String × NullStrategy) :=
  [("consommation_mw", .flag),
   ("nucleaire_mw", .fill_zero),
   ("eolien_mw", .fill_zero),
   ("solaire_mw", .fill_zero),
   ("hydraulique_mw", .fill_zero),
   ("gaz_mw", .fill_zero),
   ("charbon_mw", .fill_zero),
   ("bioenergies_mw", .fill_zero),
   ("fioul_mw", .fill_zero),
   ("pompage_mw", .fill_zero),
   ("date_heure", .drop),
   ("code_insee_region", .drop)]

/-- `CAPACITY_QUALITY_RULES` from `data_quality.py`. -/
def CAPACITY_QUALITY_RULES : List (String × NullStrategy) :=
  [("code_insee_region", .drop),
   ("puissance_installee_mw", .fill_zero)]

/-- `ERA5_QUALITY_RULES` from `data_quality.py`. -/
def ERA5_QUALITY_RULES : List (String × NullStrategy) :=
  [("wind_speed_100m", .fill_zero),
   ("temperature_c", .forward_fill),
   ("ssrd", .fill_zero)]

/-- The rule columns with strategy `s` that are present in the batch
(the `[col for col, strategy in rules.items() if ... and col in df.columns]`
comprehensions of `apply_quality_rules`). -/
def strategy_cols (rules : List (String × NullStrategy)) (df : DF)
    (s : NullStrategy) : List String :=
  (rules.filter (fun p => decide (p.2 = s ∧ p.1 ∈ colNames df))).map (·.1)

/-- Row indices kept by `df.drop_nulls(subset=dropCols)`: a row survives
iff it is non-null in every subset column. -/
def drop_keep_idx (df : DF) (dropCols : List String) : List Nat :=
  (List.range (height df)).filter (fun i => dropCols.all (fun c => (cellAt df c i).isSome))

/-- Restrict every column of the frame to the given row indices. -/
def filter_rows (df : DF) (idxs : List Nat) : DF :=
  ⟨df.cols.map (fun p => (p.1, idxs.map (fun i => (p.2.get? i).getD none)))⟩

/-- The `DROP` pass of `apply_quality_rules` (frame part). -/
def drop_nulls_stage (df : DF) (rules : List (String × NullStrategy)) : DF :=
  let dc := strategy_cols rules df .drop
  if dc.isEmpty then df else filter_rows df (drop_keep_idx df dc)

/-- Rewrite one column of the frame in place. -/
def map_col (df : DF) (c : String) (f : List Cell → List Cell) : DF :=
  ⟨df.cols.map (fun p => if p.1 = c then (p.1, f p.2) else p)⟩

/-- `pl.col(c).fill_null(0.0)` on a column. -/
def fill_zero_col : List Cell → List Cell :=
  List.map (fun cell => match cell with
    | none => some (.num 0)
    | some v => some v)

/-- Helper for `forward_fill`: carry the most recent non-null cell. -/
def ffill_go (prev : Cell) : List Cell → List Cell
  | [] => []
  | c :: cs =>
    match c with
    | some v => some v :: ffill_go (some v) cs
    | none => prev :: ffill_go prev cs

/-- `pl.col(c).forward_fill()` on a column: each null becomes the most
recent earlier non-null value; leading nulls stay null. -/
def forward_fill_col (col : List Cell) : List Cell :=
  ffill_go none col

/-- The `FILL_ZERO` pass of `apply_quality_rules` (frame part). -/
def fill_zero_stage (df : DF) (rules : List (String × NullStrategy)) : DF :=
  (strategy_cols rules df .fill_zero).foldl
    (fun d c => if 0 < null_count (getColD d c) then map_col d c fill_zero_col else d) df

/-- The `FORWARD_FILL` pass of `apply_quality_rules` (frame part). -/
def forward_fill_stage (df : DF) (rules : List (String × NullStrategy)) : DF :=
  (strategy_cols rules df .forward_fill).foldl
    (fun d c => if 0 < null_count (getColD d c) then map_col d c forward_fill_col else d) df

/-- `df.with_columns(expr.alias(n))`: replace the column named `n` when it
already exists, otherwise append it. -/
def add_col (df : DF) (n : String) (col : List Cell) : DF :=
  if n ∈ colNames df then ⟨df.cols.map (fun p => if p.1 = n then (n, col) else p)⟩
  else ⟨df.cols ++ [(n, col)]⟩

/-- `pl.col(c).is_null()`: the boolean companion column. -/
def is_null_col (col : List Cell) : List Cell :=
  col.map (fun c => some (.bool (decide (c = none))))

/-- The `FLAG` pass of `apply_quality_rules` (frame part): for each flagged
column that currently has a null, add the `<col>_is_null` companion. -/
def flag_stage (df : DF) (rules : List (String × NullStrategy)) : DF :=
  (strategy_cols rules df .flag).foldl
    (fun d c =>
      if 0 < null_count (getColD d c) then add_col d (c ++ "_is_null") (is_null_col (getColD d c))
      else d) df

/-- The metrics dict returned by `apply_quality_rules`. -/
structure QualityMetrics where
  source : String
  input_rows : Nat
  nulls_found : List (String × Nat)
  rows_dropped : Nat
  values_filled : Nat
  values_flagged : Nat
  output_rows : Nat
deriving DecidableEq, Repr

/-- The per-column null counts observed before cleaning
(`metrics["nulls_found"]`). -/
def nulls_found_of (df : DF) (rules : List (String × NullStrategy)) :
    List (String × Nat) :=
  rules.filterMap (fun p =>
    if p.1 ∈ colNames df then
      (if 0 < null_count (getColD df p.1) then some (p.1, null_count (getColD df p.1)) else none)
    else none)

/-- The DROP section of `apply_quality_rules`: a single `drop_nulls` pass
plus the `rows_dropped` metric (`before - len(df)`). -/
def drop_stage_m (df : DF) (rules : List (String × NullStrategy)) : DF × Nat :=
  let dc := strategy_cols rules df .drop
  if dc.isEmpty then (df, 0)
  else
    let d := filter_rows df (drop_keep_idx df dc)
    (d, height df - height d)

/-- The FILL_ZERO section: per-column loop, counting filled nulls. -/
def fill_zero_stage_m (rules : List (String × NullStrategy)) (p : DF × Nat) :
    DF × Nat :=
  (strategy_cols rules p.1 .fill_zero).foldl
    (fun acc c =>
      let nc := null_count (getColD acc.1 c)
      if 0 < nc then (map_col acc.1 c fill_zero_col, acc.2 + nc) else acc)
    (p.1, 0)

/-- The FORWARD_FILL section: per-column loop, adding to the same
`values_filled` counter the FILL_ZERO section used. -/
def forward_fill_stage_m (rules : List (String × NullStrategy)) (p : DF × Nat) :
    DF × Nat :=
  (strategy_cols rules p.1 .forward_fill).foldl
    (fun acc c =>
      let nc := null_count (getColD acc.1 c)
      if 0 < nc then (map_col acc.1 c forward_fill_col, acc.2 + nc) else acc)
    p

/-- The FLAG section: per-column loop adding the `<col>_is_null`
companion for each flagged column that currently has a null. -/
def flag_stage_m (rules : List (String × NullStrategy)) (p : DF × Nat) :
    DF × Nat :=
  (strategy_cols rules p.1 .flag).foldl
    (fun acc c =>
      let nc := null_count (getColD acc.1 c)
      if 0 < nc then (add_col acc.1 (c ++ "_is_null") (is_null_col (getColD acc.1 c)), acc.2 + nc)
      else acc)
    (p.1, 0)

/-- `apply_quality_rules` from `data_quality.py`: null counting, the DROP
pass (single pass over the input), then FILL_ZERO, FORWARD_FILL and FLAG
column by column, accumulating the metrics exactly as the Python does
(`values_filled` is shared between FILL_ZERO and FORWARD_FILL; each
section recomputes its column list against the current frame, as the
Python list comprehensions do). -/
def apply_quality_rules (df : DF) (rules : List (String × NullStrategy))
    (source_name : String) : DF × QualityMetrics :=
  let s1 := drop_stage_m df rules
  let s2 := fill_zero_stage_m rules s1
  let s3 := forward_fill_stage_m rules s2
  let s4 := flag_stage_m rules s3
  (s4.1,
   { source := source_name
     input_rows := height df
     nulls_found := nulls_found_of df rules
     rows_dropped := s1.2
     values_filled := s3.2
     values_flagged := s4.2
     output_rows := height s4.1 })

/-- `df.unique(subset, keep="last")` keeps, for each natural-key value,
only the last element of the list (polars does not guarantee an output
order; this model keeps the surviving elements in input order, which no
claim depends on). -/
def keep_last_by {α κ : Type} [DecidableEq κ] (key : α → κ) : List α → List α
  | [] => []
  | x :: xs =>
    if xs.any (fun y => decide (key y = key x)) then keep_last_by key xs
    else x :: keep_last_by key xs

/-- Natural-key tuple of row `i` of the frame over the subset columns. -/
def keyAt (df : DF) (subset : List String) (i : Nat) : List Cell :=
  subset.map (fun c => cellAt df c i)

/-- `df.unique(subset=subset, keep="last")`. -/
def unique_keep_last (df : DF) (subset : List String) : DF :=
  filter_rows df (keep_last_by (keyAt df subset) (List.range (height df)))

/-- Row `i` of the frame as a tuple of cells, in schema order. -/
def rowAt (df : DF) (i : Nat) : List Cell :=
  df.cols.map (fun p => (p.2.get? i).getD none)

/-- All rows of the frame, paired with their natural-key tuple. -/
def tagged_rows (df : DF) (subset : List String) : List (List Cell × List Cell) :=
  (List.range (height df)).map (fun i => (rowAt df i, keyAt df subset i))

/-- No two rows of the frame share a natural-key tuple. -/
def dedupedOn (df : DF) (subset : List String) : Prop :=
  ((List.range (height df)).map (keyAt df subset)).Pairwise (· ≠ ·)

instance (df : DF) (subset : List String) : Decidable (dedupedOn df subset) :=
  inferInstanceAs
    (Decidable (((List.range (height df)).map (keyAt df subset)).Pairwise (· ≠ ·)))

/-! ### Silver transformer stage order

`transform_rte_to_silver` (rte_silver.py) deduplicates on
`(code_insee_region, date_heure)` and only then calls
`apply_quality_rules`; the model below picks the pipeline up after the
rename/cast normalization stages, which do not touch row multiplicity.

`transform_era5_to_silver` (era5_silver.py) first derives
`wind_speed_100m` / `temperature_c` if missing, then calls
`apply_quality_rules`, and deduplicates on `(region_code, valid_time)`
only afterwards.  `transform_capacity_to_silver` (capacity_silver.py)
likewise applies quality rules first and deduplicates afterwards.
The float `sqrt` used by the wind-speed derivation is abstracted as an
oracle `sqrt_fn` (its values never matter to the claims). -/

/-- RTE dedup stage: `df.unique(subset=["code_insee_region","date_heure"],
keep="last")`, executed only when both key columns are present. -/
def rte_dedup (df : DF) : DF :=
  if "code_insee_region" ∈ colNames df ∧ "date_heure" ∈ colNames df then
    unique_keep_last df ["code_insee_region", "date_heure"]
  else df

/-- The batch handed to `apply_quality_rules` by `transform_rte_to_silver`. -/
def rte_quality_input (df : DF) : DF :=
  rte_dedup df

/-- RTE Silver core: dedup, then quality rules. -/
def transform_rte_core (df : DF) : DF × QualityMetrics :=
  apply_quality_rules (rte_quality_input df) RTE_QUALITY_RULES "rte_production"

/-- Wind-speed magnitude `sqrt(u100^2 + v100^2)` for one row; nulls
propagate as in polars arithmetic. -/
def wind_mag (sqrt_fn : ℚ → ℚ) (a b : Cell) : Cell :=
  match a, b with
  | some (.num x), some (.num y) => some (.num (sqrt_fn (x * x + y * y)))
  | _, _ => none

/-- Kelvin → Celsius, rounded to 2 decimals. -/
def round_dp (d : ℕ) (q : ℚ) : ℚ :=
  ((round (q * (10 ^ d : ℚ)) : ℤ) : ℚ) / (10 ^ d : ℚ)

/-- `t2m - 273.15` rounded to 2 decimals; null propagates. -/
def kelvin_to_c (a : Cell) : Cell :=
  match a with
  | some (.num x) => some (.num (round_dp 2 (x - 27315 / 100)))
  | _ => none

/-- ERA5 derivation stage (wind speed and Celsius temperature, each
computed only when the target column is missing and its input present;
a present `u100` with an absent `v100` would raise in polars — no claim
exercises that configuration, the model then yields an empty column). -/
def era5_derive (sqrt_fn : ℚ → ℚ) (df : DF) : DF :=
  let df1 :=
    if "wind_speed_100m" ∉ colNames df ∧ "u100" ∈ colNames df then
      add_col df "wind_speed_100m"
        (List.zipWith (wind_mag sqrt_fn) (getColD df "u100") (getColD df "v100"))
    else df
  if "temperature_c" ∉ colNames df1 ∧ "t2m" ∈ colNames df1 then
    add_col df1 "temperature_c" ((getColD df1 "t2m").map kelvin_to_c)
  else df1

/-- The batch handed to `apply_quality_rules` by `transform_era5_to_silver`:
only derivation has run — no dedup yet. -/
def era5_quality_input (sqrt_fn : ℚ → ℚ) (df : DF) : DF :=
  era5_derive sqrt_fn df

/-- ERA5 Silver core output: quality rules first, dedup afterwards. -/
def transform_era5_core (sqrt_fn : ℚ → ℚ) (df : DF) : DF :=
  let d := (apply_quality_rules (era5_quality_input sqrt_fn df) ERA5_QUALITY_RULES "era5_climate").1
  if "region_code" ∈ colNames d ∧ "valid_time" ∈ colNames d then
    unique_keep_last d ["region_code", "valid_time"]
  else d

/-- The batch handed to `apply_quality_rules` by
`transform_capacity_to_silver` (the post-normalization frame — no dedup
has run yet). -/
def capacity_quality_input (df : DF) : DF :=
  df

/-- Capacity Silver core output: quality rules first, then dedup on the
subset of `["code_insee_region","filiere"]` that is present (note the
guard: any non-empty subset triggers dedup). -/
def transform_capacity_core (df : DF) : DF :=
  let d := (apply_quality_rules (capacity_quality_input df) CAPACITY_QUALITY_RULES "capacity").1
  let dc := ["code_insee_region", "filiere"].filter (fun c => decide (c ∈ colNames d))
  if dc.isEmpty then d else unique_keep_last d dc

/-! ### Asset lifecycle (`asset_lifecycle.py`)

Timestamps are modelled as integers (hours); `last_seen_at < threshold`
is the same strict comparison the SQL performs.  The SQL `UPDATE ...
WHERE code IN (...)` updates by region code, exactly as modelled
(DIM_REGION's `code_insee` is UNIQUE, so codes identify rows). -/

/-- Lifecycle status of a DIM_REGION row. -/
inductive RegionStatus where
  | active
  | stale
  | inactive
deriving DecidableEq, Repr

/-- The DIM_REGION columns read and written by `check_staleness`. -/
structure DimRegionRow where
  code_insee_region : String
  status : RegionStatus
  last_seen_at : ℤ
deriving DecidableEq, Repr

/-- `AssetLifecycle._mark_inactive`: select codes of active-or-stale
regions with `last_seen_at < threshold`, then set their status. -/
def mark_inactive (regions : List DimRegionRow) (threshold : ℤ) :
    List DimRegionRow × List String :=
  let codes := (regions.filter (fun r =>
    decide ((r.status = .active ∨ r.status = .stale) ∧ r.last_seen_at < threshold))).map
      (·.code_insee_region)
  (regions.map (fun r =>
    if r.code_insee_region ∈ codes then { r with status := .inactive } else r), codes)

/-- `AssetLifecycle._mark_stale`: select codes of still-active regions
with `last_seen_at < threshold`, then set their status. -/
def mark_stale (regions : List DimRegionRow) (threshold : ℤ) :
    List DimRegionRow × List String :=
  let codes := (regions.filter (fun r =>
    decide (r.status = .active ∧ r.last_seen_at < threshold))).map (·.code_insee_region)
  (regions.map (fun r =>
    if r.code_insee_region ∈ codes then { r with status := .stale } else r), codes)

/-- `AssetLifecycle.check_staleness`: mark inactive first (from the union
of active and stale), then mark stale (from what is still active).
Returns (regions, stale_regions, inactive_regions). -/
def check_staleness (regions : List DimRegionRow) (now staleness_hours inactive_hours : ℤ) :
    List DimRegionRow × List String × List String :=
  let stale_threshold := now - staleness_hours
  let inactive_threshold := now - inactive_hours
  let m1 := mark_inactive regions inactive_threshold
  let m2 := mark_stale m1.1 stale_threshold
  (m2.1, m2.2, m1.2)

/-- The per-row outcome the spec describes: past the inactive threshold an
active-or-stale region ends `inactive`; otherwise an active region past the
staleness threshold ends `stale`; everything else is untouched. -/
def lifecycle_expected (now staleness_hours inactive_hours : ℤ) (r : DimRegionRow) :
    DimRegionRow :=
  if (r.status = .active ∨ r.status = .stale) ∧ r.last_seen_at < now - inactive_hours then
    { r with status := .inactive }
  else if r.status = .active ∧ r.last_seen_at < now - staleness_hours then
    { r with status := .stale }
  else r

/-! ### Gold star schema (`dim_loader.py`, `fact_loader.py`)

SQL tables are lists of rows; AUTOINCREMENT ids come from explicit
counters (SQLite assigns ids starting at 1, so a well-formed database
never holds id 0 — Python's `if not id_region or not id_date` truthiness
test is modelled verbatim via `not_truthy`).  `DIM_REGION.population` and
`superficie_km2` are never read by the core, and `DIM_TIME`'s calendar
attribute columns are write-only values derived by the abstracted
`datetime.fromisoformat`; both are omitted from the row models. -/

/-- A DIM_REGION row (the columns the Gold core reads or writes). -/
structure RegionRow where
  id_region : Nat
  code_insee : String
  nom_region : String
deriving DecidableEq, Repr

/-- A DIM_TIME row (id and natural key). -/
structure TimeRow where
  id_date : Nat
  horodatage : String
deriving DecidableEq, Repr

/-- A DIM_SOURCE row. -/
structure SourceRow where
  id_source : Nat
  source_name : String
  is_green : Bool
deriving DecidableEq, Repr

/-- A FACT_ENERGY_FLOW row (without the surrogate `id_fact`, which
nothing in the core reads; the natural key is the FK triple). -/
structure FactRow where
  id_date : Nat
  id_region : Nat
  id_source : Nat
  valeur_mw : ℚ
  facteur_charge : Option ℚ
  temperature_moyenne : Option ℚ
deriving DecidableEq, Repr

/-- One `INSERT ... ON CONFLICT ... DO UPDATE` executed by the fact-load
loop; `src_name` records which `SOURCE_COLUMN_MAP` entry produced it
(the stored row is `toFactRow`). -/
structure FactInsert extends FactRow where
  src_name : String
deriving DecidableEq, Repr

/-- The Gold database state. -/
structure GoldDB where
  regions : List RegionRow
  next_region_id : Nat
  times : List TimeRow
  next_time_id : Nat
  sources : List SourceRow
  next_source_id : Nat
  facts : List FactRow
deriving DecidableEq, Repr

/-- `SOURCE_COLUMN_MAP` from `fact_loader.py`. -/
def SOURCE_COLUMN_MAP : List (String × String) :=
  [("nucleaire_mw", "nucleaire"),
   ("eolien_mw", "eolien"),
   ("solaire_mw", "solaire"),
   ("hydraulique_mw", "hydraulique"),
   ("gaz_mw", "gaz"),
   ("charbon_mw", "charbon"),
   ("fioul_mw", "fioul"),
   ("bioenergies_mw", "bioenergies")]

/-- The default source catalog of `DimLoader.upsert_sources`. -/
def default_source_catalog : List (String × Bool) :=
  [("nucleaire", false),
   ("eolien", true),
   ("solaire", true),
   ("hydraulique", true),
   ("gaz", false),
   ("charbon", false),
   ("fioul", false),
   ("bioenergies", true)]

/-- `DimLoader.get_region_id`. -/
def get_region_id (db : GoldDB) (code : String) : Option Nat :=
  (db.regions.find? (fun r => r.code_insee = code)).map (·.id_region)

/-- `DimLoader.get_time_id`. -/
def get_time_id (db : GoldDB) (ts : String) : Option Nat :=
  (db.times.find? (fun t => t.horodatage = ts)).map (·.id_date)

/-- `DimLoader.get_source_id`. -/
def get_source_id (db : GoldDB) (name : String) : Option Nat :=
  (db.sources.find? (fun s => s.source_name = name)).map (·.id_source)

/-- One region upsert: `INSERT ... ON CONFLICT(code_insee) DO UPDATE`. -/
def upsert_region (db : GoldDB) (p : String × String) : GoldDB :=
  match db.regions.find? (fun r => r.code_insee = p.1) with
  | some _ =>
    { db with regions := db.regions.map (fun r =>
        if r.code_insee = p.1 then { r with nom_region := p.2 } else r) }
  | none =>
    { db with
      regions := db.regions ++ [⟨db.next_region_id, p.1, p.2⟩]
      next_region_id := db.next_region_id + 1 }

/-- One time upsert: skip unparsable strings (`except ... continue`),
otherwise `INSERT ... ON CONFLICT(horodatage) DO NOTHING`. -/
def upsert_time (parse_ok : String → Bool) (db : GoldDB) (ts : String) : GoldDB :=
  if parse_ok ts then
    match db.times.find? (fun t => t.horodatage = ts) with
    | some _ => db
    | none =>
      { db with
        times := db.times ++ [⟨db.next_time_id, ts⟩]
        next_time_id := db.next_time_id + 1 }
  else db

/-- One source upsert: `INSERT ... ON CONFLICT(source_name) DO UPDATE`. -/
def upsert_source (db : GoldDB) (p : String × Bool) : GoldDB :=
  match db.sources.find? (fun s => s.source_name = p.1) with
  | some _ =>
    { db with sources := db.sources.map (fun s =>
        if s.source_name = p.1 then { s with is_green := p.2 } else s) }
  | none =>
    { db with
      sources := db.sources ++ [⟨db.next_source_id, p.1, p.2⟩]
      next_source_id := db.next_source_id + 1 }

/-- `DimLoader.upsert_sources()` with the default catalog. -/
def upsert_sources (db : GoldDB) : GoldDB :=
  default_source_catalog.foldl upsert_source db

/-- A Silver row as `FactLoader.load_from_silver` reads it:
`date_heure` holds the already Utf8-cast `_ts_str`; `measures` is an
association list for the wide measure columns (absent key = column
absent, `some none` = present but null). -/
structure SRow where
  code_insee_region : Option String
  libelle_region : Option String
  date_heure : Option String
  temperature_c : Option ℚ
  temperature_moyenne : Option ℚ
  measures : List (String × Option ℚ)
deriving DecidableEq, Repr

/-- A Silver batch with its frame-level column presence flags. -/
structure SilverBatch where
  has_region_code_col : Bool
  has_libelle_col : Bool
  has_date_col : Bool
  rows : List SRow
deriving DecidableEq, Repr

/-- Python `str()` of an optional value (`str(None) = "None"`). -/
def py_str_opt (o : Option String) : String :=
  match o with
  | some s => s
  | none => "None"

/-- `str(row.get("code_insee_region", ""))`. -/
def region_code_of (b : SilverBatch) (r : SRow) : String :=
  if b.has_region_code_col then py_str_opt r.code_insee_region else ""

/-- The unique `(code_insee_region, libelle_region)` pairs of the batch
(polars `.unique()` fixes no order; the model keeps first occurrences —
no claim depends on the order). -/
def region_pairs (b : SilverBatch) : List (Option String × Option String) :=
  (b.rows.map (fun r => (r.code_insee_region, r.libelle_region))).eraseDups

/-- The non-null region pairs (the only ones that do not violate
DIM_REGION's NOT NULL constraints). -/
def clean_region_pairs (b : SilverBatch) : List (String × String) :=
  (region_pairs b).filterMap (fun p =>
    match p.1, p.2 with
    | some c, some n => some (c, n)
    | _, _ => none)

/-- The unique `date_heure` strings of the batch (nulls included, as in
`df["date_heure"].cast(pl.Utf8).unique()`). -/
def ts_values (b : SilverBatch) : List (Option String) :=
  (b.rows.map (·.date_heure)).eraseDups

/-- `DimLoader.upsert_time` over the batch's unique timestamps (a null
entry raises `AttributeError` inside the `try`, hence is skipped). -/
def upsert_times_from (parse_ok : String → Bool) (db : GoldDB) (b : SilverBatch) : GoldDB :=
  (ts_values b).foldl (fun d o =>
    match o with
    | some ts => upsert_time parse_ok d ts
    | none => d) db

/-- Dimension state after the pre-steps of `load_from_silver`:
`upsert_sources`, then the region auto-population (guarded on both
region columns being present), then the time auto-population (guarded
on `date_heure` being present). -/
def dims_after (parse_ok : String → Bool) (db : GoldDB) (b : SilverBatch) : GoldDB :=
  let d1 := upsert_sources db
  let d2 :=
    if b.has_region_code_col && b.has_libelle_col then
      (clean_region_pairs b).foldl upsert_region d1
    else d1
  if b.has_date_col then upsert_times_from parse_ok d2 b else d2

/-- Python truthiness failure of an id lookup (`not id_region`). -/
def not_truthy (o : Option Nat) : Bool :=
  match o with
  | none => true
  | some n => decide (n = 0)

/-- `round(x, d)` (Python rounds half to even; ties never reach the
claims, so the model uses Lean's `round`). -/
def facteur_of (caps : List (String × ℚ)) (src : String) (v : ℚ) : Option ℚ :=
  match caps.lookup src with
  | some installed =>
    if installed ≠ 0 then
      (if 0 < installed then some (round_dp 4 (v / installed)) else none)
    else none
  | none => none

/-- `row.get("temperature_c") or row.get("temperature_moyenne")` with
Python truthiness (`0.0` falls through to the second operand). -/
def py_truthy_or (a b : Option ℚ) : Option ℚ :=
  match a with
  | some v => if v = 0 then b else some v
  | none => b

/-- The fact inserts contributed by one Silver row: nothing when the
region or time id fails Python truthiness; otherwise one insert per
`SOURCE_COLUMN_MAP` column that is present, non-null and whose source
id resolves. -/
def row_inserts (caps : List (String × ℚ)) (db : GoldDB) (b : SilverBatch)
    (r : SRow) : List FactInsert :=
  let idR := get_region_id db (region_code_of b r)
  let idT :=
    match r.date_heure with
    | some ts => get_time_id db ts
    | none => none
  if not_truthy idR || not_truthy idT then []
  else
    SOURCE_COLUMN_MAP.foldr (fun p acc =>
      match r.measures.lookup p.1 with
      | some (some v) =>
        (match get_source_id db p.2 with
         | some ids =>
           if ids = 0 then acc
           else
             { id_date := idT.getD 0
               id_region := idR.getD 0
               id_source := ids
               valeur_mw := v
               facteur_charge := facteur_of caps p.2 v
               temperature_moyenne := py_truthy_or r.temperature_c r.temperature_moyenne
               src_name := p.2 } :: acc
         | none => acc)
      | _ => acc) []

/-- The full insert sequence of the fact-load loop (the loop never
mutates the dimension tables, so the lookups all run against `db`). -/
def fact_inserts (caps : List (String × ℚ)) (db : GoldDB) (b : SilverBatch) :
    List FactInsert :=
  b.rows.flatMap (row_inserts caps db b)

/-- The natural key of a fact row. -/
def fact_key (f : FactRow) : Nat × Nat × Nat :=
  (f.id_date, f.id_region, f.id_source)

/-- `INSERT INTO FACT_ENERGY_FLOW ... ON CONFLICT(id_date, id_region,
id_source) DO UPDATE SET valeur_mw, facteur_charge, temperature_moyenne`. -/
def upsert_fact (facts : List FactRow) (p : FactInsert) : List FactRow :=
  if facts.any (fun f => decide (fact_key f = fact_key p.toFactRow)) then
    facts.map (fun f =>
      if fact_key f = fact_key p.toFactRow then
        { f with
          valeur_mw := p.valeur_mw
          facteur_charge := p.facteur_charge
          temperature_moyenne := p.temperature_moyenne }
      else f)
  else facts ++ [p.toFactRow]

/-- `FactLoader.load_from_silver` on an in-memory batch (the file layer
is outside the model).  The two failure modes that abort the call — the
NOT NULL IntegrityError raised while auto-populating DIM_REGION from a
null pair, and the polars ColumnNotFoundError when `date_heure` is
absent — are checked up front, since an exception discards the summary
either way.  Returns the new state and `rows_loaded`. -/
def load_from_silver (parse_ok : String → Bool) (caps : List (String × ℚ))
    (db : GoldDB) (b : SilverBatch) : Except String (GoldDB × Nat) :=
  if b.rows.isEmpty then .ok (db, 0)
  else if (b.has_region_code_col && b.has_libelle_col) &&
      (region_pairs b).any (fun p => p.1.isNone || p.2.isNone) then
    .error "IntegrityError: NOT NULL constraint failed: DIM_REGION"
  else if !b.has_date_col then
    .error "ColumnNotFoundError: date_heure"
  else
    let d := dims_after parse_ok db b
    let inserts := fact_inserts caps d b
    .ok ({ d with facts := inserts.foldl upsert_fact d.facts }, inserts.length)

/-! ### Claim-side specification functions -/

/-- Spec side of C9: the measure columns of a row that are present and
non-null (each contributes one fact row for a resolvable row). -/
def present_measures (r : SRow) : List (String × String) :=
  SOURCE_COLUMN_MAP.filter (fun p =>
    match r.measures.lookup p.1 with
    | some (some _) => true
    | _ => false)

/-- Spec side of C9: whether a row's region and time resolve to
dimension keys. -/
def row_resolves (db : GoldDB) (b : SilverBatch) (r : SRow) : Bool :=
  !(not_truthy (get_region_id db (region_code_of b r)) ||
    not_truthy (match r.date_heure with
      | some ts => get_time_id db ts
      | none => none))

/-- Spec side of C9: the claimed `rows_loaded` — resolvable rows fan out
into one fact row per present non-null measure column, unresolvable
rows contribute nothing. -/
def spec_rows_loaded (db : GoldDB) (b : SilverBatch) : Nat :=
  (b.rows.map (fun r =>
    if row_resolves db b r then (present_measures r).length else 0)).sum

/-- Spec side of C8, in the claim's words: when the installed capacity
of the source is known and strictly positive, the load factor is the
measured value over capacity rounded to 4 decimals, and null otherwise. -/
def spec_facteur (caps : List (String × ℚ)) (src : String) (v : ℚ) : Option ℚ :=
  match caps.lookup src with
  | some c => if 0 < c then some (round_dp 4 (v / c)) else none
  | none => none

/-- The most recent non-null cell of a column prefix, scanning from the
end (spec side of the amended C6). -/
def last_non_null : List Cell → Cell
  | [] => none
  | c :: cs =>
    match last_non_null cs with
    | some v => some v
    | none => c

/-- Spec side of the amended C6: each null cell becomes the most recent
earlier non-null value when one exists, and stays null otherwise. -/
def ffill_spec (col : List Cell) : List Cell :=
  (List.range col.length).map (fun i =>
    match (col.get? i).getD none with
    | some v => some v
    | none => last_non_null (col.take i))

/-- The polars DataFrame invariant: every column has the frame's height.
(The `DF` type is looser than a polars frame; theorems that depend on
column alignment assume this.) -/
def WF (df : DF) : Prop :=
  ∀ p ∈ df.cols, p.2.length = height df

instance (df : DF) : Decidable (WF df) :=
  inferInstanceAs (Decidable (∀ p ∈ df.cols, p.2.length = height df))

/-- A one-row batch whose FLAG column has no nulls (`consommation_mw`
carries the RTE FLAG strategy). -/
def df_flag_no_null : DF :=
  ⟨[("consommation_mw", [some (.num 5)])]⟩

/-- A batch whose FORWARD_FILL column starts with a null that has no
earlier non-null value. -/
def df_ffill_leading : DF :=
  ⟨[("temperature_c", [none, some (.num 5)])]⟩

/-- An ERA5 batch with two rows sharing the natural key
`(region_code, valid_time)`. -/
def df_era5_dup : DF :=
  ⟨[("region_code", [some (.str "11"), some (.str "11")]),
    ("valid_time", [some (.str "2025-06-15 10:00:00"), some (.str "2025-06-15 10:00:00")]),
    ("temperature_c", [some (.num 1), some (.num 2)])]⟩

/-- A two-row RTE batch with a duplicated `(code_insee_region,
date_heure)` key, used to instantiate the dedup theorems. -/
def df_rte_dup : DF :=
  ⟨[("code_insee_region", [some (.str "11"), some (.str "11"), some (.str "84")]),
    ("date_heure", [some (.str "2025-06-15 10:00:00"), some (.str "2025-06-15 10:00:00"),
                    some (.str "2025-06-15 10:00:00")]),
    ("consommation_mw", [some (.num 100), some (.num 200), some (.num 300)])]⟩

/-- A concrete region table for the lifecycle witness: "11" unseen for
48h, "84" unseen for 200h, "93" fresh. -/
def regions_witness : List DimRegionRow :=
  [⟨"11", .active, 952⟩, ⟨"84", .active, 800⟩, ⟨"93", .active, 999⟩]

/-- An empty Gold database (AUTOINCREMENT counters start at 1, as in
SQLite). -/
def empty_gold : GoldDB :=
  ⟨[], 1, [], 1, [], 1, []⟩

/-- A concrete Silver row for the Gold-loader witnesses. -/
def srow_witness : SRow :=
  { code_insee_region := some "11"
    libelle_region := some "IDF"
    date_heure := some "2025-06-15 10:00:00"
    temperature_c := some 21
    temperature_moyenne := none
    measures := [("eolien_mw", some 100), ("solaire_mw", none), ("gaz_mw", some 50)] }

/-- A second row whose timestamp does not resolve (the oracle refuses
it), so it must be skipped silently. -/
def srow_skipped : SRow :=
  { code_insee_region := some "11"
    libelle_region := some "IDF"
    date_heure := some "not-a-timestamp"
    temperature_c := none
    temperature_moyenne := none
    measures := [("eolien_mw", some 7)] }

/-- A concrete Silver batch for the Gold-loader witnesses. -/
def sb_witness : SilverBatch :=
  { has_region_code_col := true
    has_libelle_col := true
    has_date_col := true
    rows := [srow_witness, srow_skipped] }

/-- The timestamp oracle of the witnesses: exactly the well-formed
timestamp string parses. -/
def parse_ok_witness : String → Bool :=
  fun s => s = "2025-06-15 10:00:00"

/-- Capacity data for the witnesses.  It is empty: rational division
does not reduce in the kernel, so the witnesses exercise the
capacity-unknown branch (load factor null); the positive branch is
covered by the universally quantified theorems. -/
def caps_witness : List (String × ℚ) :=
  []

/-- The `(id, natural key)` projection of DIM_REGION (everything
`get_region_id` can observe). -/
def region_keys (db : GoldDB) : List (Nat × String) :=
  db.regions.map (fun r => (r.id_region, r.code_insee))

/-- The codes present in DIM_REGION. -/
def region_codes (db : GoldDB) : List String :=
  db.regions.map (·.code_insee)

/-- The `(id, natural key)` projection of DIM_TIME. -/
def time_keys (db : GoldDB) : List (Nat × String) :=
  db.times.map (fun t => (t.id_date, t.horodatage))

/-- The timestamps present in DIM_TIME. -/
def time_stamps (db : GoldDB) : List String :=
  db.times.map (·.horodatage)

/-- The `(id, natural key)` projection of DIM_SOURCE. -/
def source_keys (db : GoldDB) : List (Nat × String) :=
  db.sources.map (fun s => (s.id_source, s.source_name))

/-- The source names present in DIM_SOURCE. -/
def source_names (db : GoldDB) : List String :=
  db.sources.map (·.source_name)

/-- The natural keys of the fact table. -/
def fact_keys (facts : List FactRow) : List (Nat × Nat × Nat) :=
  facts.map fact_key

/-- SQLite AUTOINCREMENT starts at 1, so ids are never 0 (Python's
truthiness test `if not id_source` treats 0 as a failed lookup). -/
def sources_wf (db : GoldDB) : Prop :=
  (∀ s ∈ db.sources, s.id_source ≠ 0) ∧ db.next_source_id ≠ 0

instance (db : GoldDB) : Decidable (sources_wf db) :=
  inferInstanceAs
    (Decidable ((∀ s ∈ db.sources, s.id_source ≠ 0) ∧ db.next_source_id ≠ 0))

/-- First run of the loader on the witness batch (result extracted from the
`Except`; the default is never reached — the run succeeds). -/
def run1w : GoldDB × Nat :=
  (load_from_silver parse_ok_witness caps_witness empty_gold sb_witness).toOption.getD
    (empty_gold, 0)

/-- Second, identical run on the state the first one produced. -/
def run2w : GoldDB × Nat :=
  (load_from_silver parse_ok_witness caps_witness run1w.1 sb_witness).toOption.getD
    (empty_gold, 0)

/-! ## Lemmas and claim theorems -/

theorem foldl_pair_fst {α β γ : Type _} (step : α × β → γ → α × β) (step1 : α → γ → α)
    (h : ∀ a b c, (step (a, b) c).1 = step1 a c) :
    ∀ (l : List γ) (a : α) (b : β), (l.foldl step (a, b)).1 = l.foldl step1 a := by
  intro l
  induction l with
  | nil => intro a b; rfl
  | cons c cs ih =>
    intro a b
    simp only [List.foldl_cons]
    have h1 := h a b c
    rcases hs : step (a, b) c with ⟨a2, b2⟩
    rw [hs] at h1
    dsimp at h1
    rw [ih a2 b2, h1]

theorem foldl_pair_fst' {α β γ : Type _} (step : α × β → γ → α × β) (step1 : α → γ → α)
    (h : ∀ a b c, (step (a, b) c).1 = step1 a c)
    (l : List γ) (p : α × β) : (l.foldl step p).1 = l.foldl step1 p.1 := by
  rcases p with ⟨a, b⟩
  exact foldl_pair_fst step step1 h l a b

theorem length_fill_zero_col (col : List Cell) :
    (fill_zero_col col).length = col.length := by
  simp [fill_zero_col]

theorem length_ffill_go (prev : Cell) (col : List Cell) :
    (ffill_go prev col).length = col.length := by
  induction col generalizing prev with
  | nil => rfl
  | cons c cs ih => cases c <;> simp [ffill_go, ih]

theorem length_forward_fill_col (col : List Cell) :
    (forward_fill_col col).length = col.length :=
  length_ffill_go none col

theorem length_is_null_col (col : List Cell) :
    (is_null_col col).length = col.length := by
  simp [is_null_col]

theorem fst_map_col_entry (c : String) (f : List Cell → List Cell) (p : String × List Cell) :
    (if p.1 = c then (p.1, f p.2) else p).1 = p.1 := by
  split <;> rfl

theorem colNames_filter_rows (df : DF) (idxs : List Nat) :
    colNames (filter_rows df idxs) = colNames df := by
  simp [colNames, filter_rows, List.map_map, Function.comp]

theorem colNames_map_col (df : DF) (c : String) (f : List Cell → List Cell) :
    colNames (map_col df c f) = colNames df := by
  simp only [colNames, map_col, List.map_map]
  apply List.map_congr_left
  intro p _
  exact fst_map_col_entry c f p

theorem height_filter_rows (df : DF) (idxs : List Nat) (h : df.cols ≠ []) :
    height (filter_rows df idxs) = idxs.length := by
  unfold height filter_rows
  cases hc : df.cols with
  | nil => exact absurd hc h
  | cons p l => simp

theorem height_map_col (df : DF) (c : String) (f : List Cell → List Cell)
    (hf : ∀ col, (f col).length = col.length) :
    height (map_col df c f) = height df := by
  unfold height map_col
  cases df.cols with
  | nil => rfl
  | cons p l =>
    simp only [List.map_cons]
    split <;> simp [hf]

theorem WF_filter_rows (df : DF) (idxs : List Nat) : WF (filter_rows df idxs) := by
  intro p hp
  simp only [filter_rows, List.mem_map] at hp
  obtain ⟨q, hq, rfl⟩ := hp
  have hne : (filter_rows df idxs).cols ≠ [] := by
    simp only [filter_rows]
    exact fun h => by simp [List.map_eq_nil_iff.1 h] at hq
  simp [height_filter_rows df idxs (fun h => by simp [h] at hq)]

theorem WF_map_col (df : DF) (c : String) (f : List Cell → List Cell)
    (hwf : WF df) (hf : ∀ col, (f col).length = col.length) :
    WF (map_col df c f) := by
  intro p hp
  simp only [map_col, List.mem_map] at hp
  obtain ⟨q, hq, rfl⟩ := hp
  rw [height_map_col df c f hf]
  have hlen := hwf q hq
  split <;> simp [hf, hlen]

theorem fst_add_entry (n : String) (col : List Cell) (p : String × List Cell) :
    (if p.1 = n then (n, col) else p).1 = p.1 := by
  split
  next h => exact h.symm
  next => rfl

theorem colNames_add_col (df : DF) (n : String) (col : List Cell) :
    colNames (add_col df n col) =
      if n ∈ colNames df then colNames df else colNames df ++ [n] := by
  unfold add_col
  split
  next h =>
    simp only [colNames, List.map_map]
    apply List.map_congr_left
    intro p _
    exact fst_add_entry n col p
  next h =>
    simp [colNames]

theorem mem_colNames_add_col (df : DF) (n : String) (col : List Cell) (c : String)
    (h : c ∈ colNames df) : c ∈ colNames (add_col df n col) := by
  rw [colNames_add_col]
  split
  · exact h
  · exact List.mem_append_left _ h

theorem getColD_length (df : DF) (c : String) (hwf : WF df) (hc : c ∈ colNames df) :
    (getColD df c).length = height df := by
  unfold getColD
  cases hf : df.cols.find? (fun p => decide (p.1 = c)) with
  | none =>
    exfalso
    obtain ⟨p, hp, hpc⟩ := List.mem_map.1 hc
    have := List.find?_eq_none.1 hf p hp
    simp [hpc] at this
  | some q =>
    simp only [Option.map_some', Option.getD_some]
    exact hwf q (List.mem_of_find?_eq_some hf)

theorem height_add_col (df : DF) (n : String) (col : List Cell)
    (hwf : WF df) (hl : col.length = height df) :
    height (add_col df n col) = height df := by
  unfold add_col
  split
  · unfold height
    cases hc : df.cols with
    | nil => simp
    | cons p l =>
      have hh : height df = p.2.length := by unfold height; rw [hc]
      simp only [List.map_cons]
      split
      next => simpa [hh] using hl
      next => rfl
  · unfold height
    cases hc : df.cols with
    | nil =>
      have : height df = 0 := by unfold height; rw [hc]
      simp only [List.nil_append]
      rw [this] at hl
      exact hl
    | cons p l => simp [height, hc]

theorem WF_add_col (df : DF) (n : String) (col : List Cell)
    (hwf : WF df) (hl : col.length = height df) :
    WF (add_col df n col) := by
  intro p hp
  rw [height_add_col df n col hwf hl]
  unfold add_col at hp
  split at hp
  · simp only [List.mem_map] at hp
    obtain ⟨q, hq, rfl⟩ := hp
    split
    next => exact hl
    next => exact hwf q hq
  · rcases List.mem_append.1 hp with h | h
    · exact hwf p h
    · simp at h
      rw [h]
      exact hl

theorem strategy_cols_mem_names (rules : List (String × NullStrategy)) (df : DF)
    (s : NullStrategy) (c : String) (h : c ∈ strategy_cols rules df s) :
    c ∈ colNames df := by
  simp only [strategy_cols, List.mem_map, List.mem_filter] at h
  obtain ⟨p, ⟨_, hcond⟩, rfl⟩ := h
  exact (of_decide_eq_true hcond).2

theorem pure_fill_fold_props (f : List Cell → List Cell)
    (hf : ∀ col, (f col).length = col.length) (l : List String) :
    ∀ d : DF,
      height (l.foldl (fun d c => if 0 < null_count (getColD d c) then map_col d c f else d) d)
          = height d
      ∧ colNames (l.foldl (fun d c => if 0 < null_count (getColD d c) then map_col d c f else d) d)
          = colNames d
      ∧ (WF d →
          WF (l.foldl (fun d c => if 0 < null_count (getColD d c) then map_col d c f else d) d)) := by
  induction l with
  | nil => intro d; exact ⟨rfl, rfl, fun h => h⟩
  | cons c cs ih =>
    intro d
    simp only [List.foldl_cons]
    by_cases hc : 0 < null_count (getColD d c)
    · rw [if_pos hc]
      obtain ⟨h1, h2, h3⟩ := ih (map_col d c f)
      exact ⟨h1.trans (height_map_col d c f hf),
             h2.trans (colNames_map_col d c f),
             fun hwf => h3 (WF_map_col d c f hwf hf)⟩
    · rw [if_neg hc]
      exact ih d

theorem flag_fold_props (l : List String) :
    ∀ d : DF, WF d → (∀ c ∈ l, c ∈ colNames d) →
      height (l.foldl (fun d c =>
          if 0 < null_count (getColD d c) then
            add_col d (c ++ "_is_null") (is_null_col (getColD d c))
          else d) d) = height d
      ∧ WF (l.foldl (fun d c =>
          if 0 < null_count (getColD d c) then
            add_col d (c ++ "_is_null") (is_null_col (getColD d c))
          else d) d) := by
  induction l with
  | nil => intro d hwf _; exact ⟨rfl, hwf⟩
  | cons c cs ih =>
    intro d hwf hmem
    simp only [List.foldl_cons]
    by_cases hc : 0 < null_count (getColD d c)
    · rw [if_pos hc]
      have hcl : (is_null_col (getColD d c)).length = height d := by
        rw [length_is_null_col]
        exact getColD_length d c hwf (hmem c (List.mem_cons_self c cs))
      have hwf2 := WF_add_col d (c ++ "_is_null") (is_null_col (getColD d c)) hwf hcl
      have hh2 := height_add_col d (c ++ "_is_null") (is_null_col (getColD d c)) hwf hcl
      have hmem2 : ∀ c' ∈ cs, c' ∈ colNames (add_col d (c ++ "_is_null") (is_null_col (getColD d c))) :=
        fun c' hc' => mem_colNames_add_col _ _ _ _ (hmem c' (List.mem_cons_of_mem c hc'))
      obtain ⟨h1, h2⟩ := ih _ hwf2 hmem2
      exact ⟨h1.trans hh2, h2⟩
    · rw [if_neg hc]
      exact ih d hwf (fun c' hc' => hmem c' (List.mem_cons_of_mem c hc'))

theorem drop_stage_m_fst (df : DF) (rules : List (String × NullStrategy)) :
    (drop_stage_m df rules).1 = drop_nulls_stage df rules := by
  simp only [drop_stage_m, drop_nulls_stage]
  split <;> rfl

theorem fill_zero_stage_m_fst (rules : List (String × NullStrategy)) (p : DF × Nat) :
    (fill_zero_stage_m rules p).1 = fill_zero_stage p.1 rules := by
  unfold fill_zero_stage_m fill_zero_stage
  exact foldl_pair_fst _ _ (by intro a b c; dsimp only; split <;> rfl) _ p.1 0

theorem forward_fill_stage_m_fst (rules : List (String × NullStrategy)) (p : DF × Nat) :
    (forward_fill_stage_m rules p).1 = forward_fill_stage p.1 rules := by
  unfold forward_fill_stage_m forward_fill_stage
  exact foldl_pair_fst' _ _ (by intro a b c; dsimp only; split <;> rfl) _ p

theorem flag_stage_m_fst (rules : List (String × NullStrategy)) (p : DF × Nat) :
    (flag_stage_m rules p).1 = flag_stage p.1 rules := by
  unfold flag_stage_m flag_stage
  exact foldl_pair_fst _ _ (by intro a b c; dsimp only; split <;> rfl) _ p.1 0

theorem aqr_frame (df : DF) (rules : List (String × NullStrategy)) (sn : String) :
    (apply_quality_rules df rules sn).1
      = flag_stage (forward_fill_stage (fill_zero_stage (drop_nulls_stage df rules) rules) rules)
          rules := by
  unfold apply_quality_rules
  dsimp only
  rw [flag_stage_m_fst, forward_fill_stage_m_fst, fill_zero_stage_m_fst, drop_stage_m_fst]

theorem aqr_input_rows (df : DF) (rules : List (String × NullStrategy)) (sn : String) :
    (apply_quality_rules df rules sn).2.input_rows = height df := rfl

theorem aqr_rows_dropped (df : DF) (rules : List (String × NullStrategy)) (sn : String) :
    (apply_quality_rules df rules sn).2.rows_dropped = (drop_stage_m df rules).2 := rfl

theorem aqr_output_rows (df : DF) (rules : List (String × NullStrategy)) (sn : String) :
    (apply_quality_rules df rules sn).2.output_rows
      = height ((apply_quality_rules df rules sn).1) := rfl

theorem drop_stage_m_snd (df : DF) (rules : List (String × NullStrategy)) :
    (drop_stage_m df rules).2 = height df - height (drop_nulls_stage df rules) := by
  simp only [drop_stage_m, drop_nulls_stage]
  split
  · simp
  · rfl

theorem height_drop_nulls_stage_le (df : DF) (rules : List (String × NullStrategy)) :
    height (drop_nulls_stage df rules) ≤ height df := by
  simp only [drop_nulls_stage]
  split
  next => exact le_refl _
  next h =>
    have hdc : strategy_cols rules df .drop ≠ [] := by
      simpa [List.isEmpty_iff] using h
    have hne : df.cols ≠ [] := by
      obtain ⟨c, hc⟩ := List.exists_mem_of_ne_nil _ hdc
      have hmem := strategy_cols_mem_names rules df .drop c hc
      intro hnil
      simp [colNames, hnil] at hmem
    rw [height_filter_rows df _ hne]
    calc (drop_keep_idx df _).length
        ≤ (List.range (height df)).length := by
          unfold drop_keep_idx; exact List.length_filter_le _ _
      _ = height df := List.length_range _

theorem WF_drop_nulls_stage (df : DF) (rules : List (String × NullStrategy)) (hwf : WF df) :
    WF (drop_nulls_stage df rules) := by
  simp only [drop_nulls_stage]
  split
  · exact hwf
  · exact WF_filter_rows _ _

theorem colNames_drop_nulls_stage (df : DF) (rules : List (String × NullStrategy)) :
    colNames (drop_nulls_stage df rules) = colNames df := by
  simp only [drop_nulls_stage]
  split
  · rfl
  · exact colNames_filter_rows _ _

theorem fill_zero_stage_props (d : DF) (rules : List (String × NullStrategy)) :
    height (fill_zero_stage d rules) = height d
    ∧ colNames (fill_zero_stage d rules) = colNames d
    ∧ (WF d → WF (fill_zero_stage d rules)) := by
  unfold fill_zero_stage
  exact pure_fill_fold_props fill_zero_col length_fill_zero_col _ d

theorem forward_fill_stage_props (d : DF) (rules : List (String × NullStrategy)) :
    height (forward_fill_stage d rules) = height d
    ∧ colNames (forward_fill_stage d rules) = colNames d
    ∧ (WF d → WF (forward_fill_stage d rules)) := by
  unfold forward_fill_stage
  exact pure_fill_fold_props forward_fill_col length_forward_fill_col _ d

theorem flag_stage_props (d : DF) (rules : List (String × NullStrategy)) (hwf : WF d) :
    height (flag_stage d rules) = height d ∧ WF (flag_stage d rules) := by
  unfold flag_stage
  exact flag_fold_props _ d hwf (fun c hc => strategy_cols_mem_names rules d .flag c hc)

/-- C10: for every input frame and rule table, the metrics of
`apply_quality_rules` satisfy `output_rows + rows_dropped = input_rows` —
only the DROP pass removes rows, the FILL_ZERO, FORWARD_FILL and FLAG
passes preserve the row count. -/
theorem quality_rules_row_conservation (df : DF) (rules : List (String × NullStrategy))
    (sn : String) (hwf : WF df) :
    (apply_quality_rules df rules sn).2.output_rows
        + (apply_quality_rules df rules sn).2.rows_dropped
      = (apply_quality_rules df rules sn).2.input_rows := by
  rw [aqr_output_rows, aqr_rows_dropped, aqr_input_rows, aqr_frame, drop_stage_m_snd]
  have hwf1 : WF (drop_nulls_stage df rules) := WF_drop_nulls_stage df rules hwf
  have h1 : height (drop_nulls_stage df rules) ≤ height df := height_drop_nulls_stage_le df rules
  obtain ⟨hh2, hn2, hw2⟩ := fill_zero_stage_props (drop_nulls_stage df rules) rules
  obtain ⟨hh3, hn3, hw3⟩ :=
    forward_fill_stage_props (fill_zero_stage (drop_nulls_stage df rules) rules) rules
  obtain ⟨hh4, hw4⟩ :=
    flag_stage_props
      (forward_fill_stage (fill_zero_stage (drop_nulls_stage df rules) rules) rules) rules
      (hw3 (hw2 hwf1))
  rw [hh4, hh3, hh2]
  omega

/-- Witness for C10 at a concrete RTE batch in which the DROP column
`code_insee_region` has a null (1 surviving row + 1 dropped = 2 read). -/
theorem quality_rules_row_conservation_witness :
    WF ⟨[("code_insee_region", [some (.str "11"), none]),
         ("consommation_mw", [some (.num 1), some (.num 2)])]⟩
    ∧ (apply_quality_rules
          ⟨[("code_insee_region", [some (.str "11"), none]),
            ("consommation_mw", [some (.num 1), some (.num 2)])]⟩
          RTE_QUALITY_RULES "rte_production").2.output_rows
        + (apply_quality_rules
          ⟨[("code_insee_region", [some (.str "11"), none]),
            ("consommation_mw", [some (.num 1), some (.num 2)])]⟩
          RTE_QUALITY_RULES "rte_production").2.rows_dropped
      = (apply_quality_rules
          ⟨[("code_insee_region", [some (.str "11"), none]),
            ("consommation_mw", [some (.num 1), some (.num 2)])]⟩
          RTE_QUALITY_RULES "rte_production").2.input_rows :=
  ⟨by decide, quality_rules_row_conservation _ RTE_QUALITY_RULES "rte_production" (by decide)⟩

theorem strategy_cols_cons_absent (c : String) (s : NullStrategy)
    (rules : List (String × NullStrategy)) (d : DF) (st : NullStrategy)
    (h : c ∉ colNames d) :
    strategy_cols ((c, s) :: rules) d st = strategy_cols rules d st := by
  simp only [strategy_cols, List.filter_cons]
  rw [if_neg (by simp [h])]

theorem nulls_found_cons_absent (c : String) (s : NullStrategy)
    (rules : List (String × NullStrategy)) (df : DF) (h : c ∉ colNames df) :
    nulls_found_of df ((c, s) :: rules) = nulls_found_of df rules := by
  simp only [nulls_found_of, List.filterMap_cons]
  rw [if_neg h]

theorem drop_stage_m_cons_absent (c : String) (s : NullStrategy)
    (rules : List (String × NullStrategy)) (df : DF) (h : c ∉ colNames df) :
    drop_stage_m df ((c, s) :: rules) = drop_stage_m df rules := by
  unfold drop_stage_m
  rw [strategy_cols_cons_absent c s rules df .drop h]

theorem fill_zero_stage_m_cons_absent (c : String) (s : NullStrategy)
    (rules : List (String × NullStrategy)) (p : DF × Nat) (h : c ∉ colNames p.1) :
    fill_zero_stage_m ((c, s) :: rules) p = fill_zero_stage_m rules p := by
  unfold fill_zero_stage_m
  rw [strategy_cols_cons_absent c s rules p.1 .fill_zero h]

theorem forward_fill_stage_m_cons_absent (c : String) (s : NullStrategy)
    (rules : List (String × NullStrategy)) (p : DF × Nat) (h : c ∉ colNames p.1) :
    forward_fill_stage_m ((c, s) :: rules) p = forward_fill_stage_m rules p := by
  unfold forward_fill_stage_m
  rw [strategy_cols_cons_absent c s rules p.1 .forward_fill h]

theorem flag_stage_m_cons_absent (c : String) (s : NullStrategy)
    (rules : List (String × NullStrategy)) (p : DF × Nat) (h : c ∉ colNames p.1) :
    flag_stage_m ((c, s) :: rules) p = flag_stage_m rules p := by
  unfold flag_stage_m
  rw [strategy_cols_cons_absent c s rules p.1 .flag h]

theorem colNames_drop_stage_m_fst (df : DF) (rules : List (String × NullStrategy)) :
    colNames (drop_stage_m df rules).1 = colNames df := by
  rw [drop_stage_m_fst]
  exact colNames_drop_nulls_stage df rules

theorem colNames_fill_zero_stage_m_fst (rules : List (String × NullStrategy)) (p : DF × Nat) :
    colNames (fill_zero_stage_m rules p).1 = colNames p.1 := by
  rw [fill_zero_stage_m_fst]
  exact (fill_zero_stage_props p.1 rules).2.1

theorem colNames_forward_fill_stage_m_fst (rules : List (String × NullStrategy)) (p : DF × Nat) :
    colNames (forward_fill_stage_m rules p).1 = colNames p.1 := by
  rw [forward_fill_stage_m_fst]
  exact (forward_fill_stage_props p.1 rules).2.1

/-- C7: `apply_quality_rules` applies strategies in a fixed, deterministic
order — a single DROP pass over the input frame, then the FILL_ZERO,
FORWARD_FILL and FLAG passes column by column — and a rule whose column
is absent from the batch is silently ignored: it changes neither the
output frame nor the metrics, and causes no error (the function is
total). -/
theorem quality_rules_fixed_order (df : DF) (rules : List (String × NullStrategy))
    (sn : String) :
    (apply_quality_rules df rules sn).1
        = flag_stage
            (forward_fill_stage (fill_zero_stage (drop_nulls_stage df rules) rules) rules) rules
    ∧ (∀ c s, c ∉ colNames df →
        apply_quality_rules df ((c, s) :: rules) sn = apply_quality_rules df rules sn) := by
  constructor
  · exact aqr_frame df rules sn
  · intro c s hc
    have hc1 : c ∉ colNames (drop_stage_m df rules).1 := by
      rw [colNames_drop_stage_m_fst]; exact hc
    have hc2 : c ∉ colNames (fill_zero_stage_m rules (drop_stage_m df rules)).1 := by
      rw [colNames_fill_zero_stage_m_fst]; exact hc1
    have hc3 : c ∉ colNames
        (forward_fill_stage_m rules (fill_zero_stage_m rules (drop_stage_m df rules))).1 := by
      rw [colNames_forward_fill_stage_m_fst]; exact hc2
    unfold apply_quality_rules
    dsimp only
    rw [drop_stage_m_cons_absent c s rules df hc,
        fill_zero_stage_m_cons_absent c s rules _ hc1,
        forward_fill_stage_m_cons_absent c s rules _ hc2,
        flag_stage_m_cons_absent c s rules _ hc3,
        nulls_found_cons_absent c s rules df hc]

/-- Witness for C7 at the duplicated RTE batch, with an absent-column
rule `("puissance_installee_mw", DROP)` prepended. -/
theorem quality_rules_fixed_order_witness :
    ((apply_quality_rules df_rte_dup RTE_QUALITY_RULES "rte_production").1
        = flag_stage
            (forward_fill_stage (fill_zero_stage (drop_nulls_stage df_rte_dup RTE_QUALITY_RULES)
              RTE_QUALITY_RULES) RTE_QUALITY_RULES) RTE_QUALITY_RULES)
    ∧ ("puissance_installee_mw" ∉ colNames df_rte_dup
    ∧ apply_quality_rules df_rte_dup (("puissance_installee_mw", .drop) :: RTE_QUALITY_RULES)
          "rte_production"
        = apply_quality_rules df_rte_dup RTE_QUALITY_RULES "rte_production") :=
  ⟨(quality_rules_fixed_order df_rte_dup RTE_QUALITY_RULES "rte_production").1,
   by decide,
   (quality_rules_fixed_order df_rte_dup RTE_QUALITY_RULES "rte_production").2
     "puissance_installee_mw" .drop (by decide)⟩

theorem find_map_fst_preserved (l : List (String × List Cell))
    (g : String × List Cell → String × List Cell) (hg : ∀ p, (g p).1 = p.1) (c : String) :
    (l.map g).find? (fun p => p.1 = c) = (l.find? (fun p => p.1 = c)).map g := by
  induction l with
  | nil => rfl
  | cons p l ih =>
    simp only [List.map_cons, List.find?_cons]
    rw [hg p]
    by_cases hc : p.1 = c
    · simp [hc]
    · simp [hc, ih]

theorem getColD_map_col (df : DF) (c : String) (f : List Cell → List Cell) (c' : String) :
    getColD (map_col df c f) c'
      = if c' = c ∧ c ∈ colNames df then f (getColD df c) else getColD df c' := by
  unfold getColD map_col
  dsimp only
  rw [find_map_fst_preserved df.cols _ (fst_map_col_entry c f) c']
  cases hf : df.cols.find? (fun p => decide (p.1 = c')) with
  | none =>
    have hcond : ¬(c' = c ∧ c ∈ colNames df) := by
      rintro ⟨rfl, hmem⟩
      obtain ⟨p, hp, hpc⟩ := List.mem_map.1 hmem
      have := List.find?_eq_none.1 hf p hp
      simp [hpc] at this
    rw [if_neg hcond]
    rfl
  | some q =>
    have hq1 : q.1 = c' := by simpa using List.find?_some hf
    by_cases hcc : c' = c
    · subst hcc
      have hmem : c' ∈ colNames df :=
        List.mem_map.2 ⟨q, List.mem_of_find?_eq_some hf, hq1⟩
      rw [if_pos ⟨rfl, hmem⟩, hf]
      simp [hq1]
    · rw [if_neg (fun h => hcc h.1)]
      simp [hq1, hcc]

theorem getColD_fill_fold_not_mem (f : List Cell → List Cell) (l : List String) (c : String)
    (hc : c ∉ l) :
    ∀ d : DF,
      getColD (l.foldl (fun d x => if 0 < null_count (getColD d x) then map_col d x f else d) d) c
        = getColD d c := by
  induction l with
  | nil => intro d; rfl
  | cons x xs ih =>
    intro d
    have hcx : c ≠ x := fun h => hc (h ▸ List.mem_cons_self x xs)
    have hcxs : c ∉ xs := fun h => hc (List.mem_cons_of_mem x h)
    simp only [List.foldl_cons]
    by_cases hg : 0 < null_count (getColD d x)
    · rw [if_pos hg, ih hcxs, getColD_map_col, if_neg (fun h => hcx h.1)]
    · rw [if_neg hg, ih hcxs]

theorem getColD_add_col_ne (df : DF) (n : String) (col : List Cell) (c : String)
    (hne : c ≠ n) : getColD (add_col df n col) c = getColD df c := by
  unfold add_col
  split
  · unfold getColD
    dsimp only
    rw [find_map_fst_preserved df.cols _ (fst_add_entry n col) c]
    cases hf : df.cols.find? (fun p => decide (p.1 = c)) with
    | none => rfl
    | some q =>
      have hq1 : q.1 = c := by simpa using List.find?_some hf
      simp [hq1, hne]
  · unfold getColD
    dsimp only
    rw [List.find?_append]
    cases hf : df.cols.find? (fun p => decide (p.1 = c)) with
    | none => simp [hne.symm]
    | some q => simp

theorem getColD_flag_fold_ne (l : List String) (c : String)
    (hne : ∀ x ∈ l, x ++ "_is_null" ≠ c) :
    ∀ d : DF,
      getColD (l.foldl (fun d x =>
        if 0 < null_count (getColD d x) then
          add_col d (x ++ "_is_null") (is_null_col (getColD d x))
        else d) d) c = getColD d c := by
  induction l with
  | nil => intro d; rfl
  | cons x xs ih =>
    intro d
    have hx : x ++ "_is_null" ≠ c := hne x (List.mem_cons_self x xs)
    have hxs : ∀ y ∈ xs, y ++ "_is_null" ≠ c := fun y hy => hne y (List.mem_cons_of_mem x hy)
    simp only [List.foldl_cons]
    by_cases hg : 0 < null_count (getColD d x)
    · rw [if_pos hg, ih hxs, getColD_add_col_ne _ _ _ _ (fun h => hx h.symm)]
    · rw [if_neg hg, ih hxs]

theorem ffill_go_get? (col : List Cell) : ∀ (prev : Cell) (i : Nat),
    (ffill_go prev col).get? i
      = (col.get? i).map (fun cell =>
          match cell with
          | some v => some v
          | none =>
            match last_non_null (col.take i) with
            | some w => some w
            | none => prev) := by
  induction col with
  | nil => intro prev i; simp [ffill_go]
  | cons c cs ih =>
    intro prev i
    cases c with
    | some v =>
      cases i with
      | zero => simp [ffill_go]
      | succ n =>
        simp only [ffill_go, List.get?_cons_succ, List.take_succ_cons]
        rw [ih (some v) n]
        cases hc : cs.get? n with
        | none => rfl
        | some cell =>
          simp only [Option.map_some']
          cases cell with
          | some w => rfl
          | none =>
            have : last_non_null (some v :: cs.take n)
                = match last_non_null (cs.take n) with
                  | some w => some w
                  | none => some v := rfl
            rw [this]
            cases last_non_null (cs.take n) <;> rfl
    | none =>
      cases i with
      | zero => simp [ffill_go, last_non_null]
      | succ n =>
        simp only [ffill_go, List.get?_cons_succ, List.take_succ_cons]
        rw [ih prev n]
        cases hc : cs.get? n with
        | none => rfl
        | some cell =>
          simp only [Option.map_some']
          cases cell with
          | some w => rfl
          | none =>
            have : last_non_null ((none : Cell) :: cs.take n)
                = match last_non_null (cs.take n) with
                  | some w => some w
                  | none => none := rfl
            rw [this]
            cases last_non_null (cs.take n) <;> rfl

theorem get?_range (n i : Nat) :
    (List.range n).get? i = if i < n then some i else none := by
  rw [List.get?_eq_getElem?]
  by_cases h : i < n
  · simp [h, List.getElem?_range]
  · simp only [h, if_false]
    simp
    omega

theorem ffill_spec_get? (col : List Cell) (i : Nat) :
    (ffill_spec col).get? i
      = if i < col.length then
          some (match (col.get? i).getD none with
            | some v => some v
            | none => last_non_null (col.take i))
        else none := by
  unfold ffill_spec
  rw [List.get?_map, get?_range]
  split <;> rfl

theorem forward_fill_col_eq_spec (col : List Cell) :
    forward_fill_col col = ffill_spec col := by
  apply List.ext_get?
  intro i
  rw [forward_fill_col, ffill_go_get? col none i, ffill_spec_get?]
  by_cases hi : i < col.length
  · rw [if_pos hi]
    cases hc : col.get? i with
    | none =>
      exfalso
      rw [List.get?_eq_none] at hc
      omega
    | some cell =>
      simp only [Option.map_some', Option.getD_some]
      cases cell with
      | some v => rfl
      | none => cases last_non_null (col.take i) <;> rfl
  · rw [if_neg hi]
    have : col.get? i = none := List.get?_eq_none.2 (by omega)
    rw [this]
    rfl

theorem null_count_zero_mem (col : List Cell) (h : null_count col = 0)
    (cell : Cell) (hc : cell ∈ col) : cell ≠ none := by
  intro hcn
  subst hcn
  unfold null_count at h
  rw [List.length_eq_zero] at h
  have : (none : Cell) ∈ col.filter (fun c => decide (c = none)) :=
    List.mem_filter.2 ⟨hc, by simp⟩
  rw [h] at this
  exact absurd this (List.not_mem_nil _)

theorem ffill_spec_no_null (col : List Cell) (h : null_count col = 0) :
    ffill_spec col = col := by
  apply List.ext_get?
  intro i
  rw [ffill_spec_get?]
  by_cases hi : i < col.length
  · rw [if_pos hi]
    cases hc : col.get? i with
    | none =>
      exfalso
      rw [List.get?_eq_none] at hc
      omega
    | some cell =>
      cases cell with
      | some v => rfl
      | none =>
        exfalso
        exact null_count_zero_mem col h none (List.get?_mem hc) rfl
  · rw [if_neg hi]
    exact (List.get?_eq_none.2 (by omega)).symm

theorem rules_unique_strategy (rules : List (String × NullStrategy))
    (hnodup : (rules.map Prod.fst).Nodup) {c : String} {s1 s2 : NullStrategy}
    (h1 : (c, s1) ∈ rules) (h2 : (c, s2) ∈ rules) : s1 = s2 := by
  have heq := List.inj_on_of_nodup_map hnodup h1 h2 rfl
  exact (Prod.mk.injEq c s1 c s2 ▸ heq).2

theorem strategy_cols_mem_rules (rules : List (String × NullStrategy)) (d : DF)
    (st : NullStrategy) (x : String) (hx : x ∈ strategy_cols rules d st) :
    (x, st) ∈ rules := by
  simp only [strategy_cols, List.mem_map, List.mem_filter] at hx
  obtain ⟨⟨a, b⟩, ⟨hp, hcond⟩, heq⟩ := hx
  dsimp at heq
  subst heq
  have hb := (of_decide_eq_true hcond).1
  dsimp at hb
  subst hb
  exact hp

theorem not_mem_strategy_cols_of_other (rules : List (String × NullStrategy)) (d : DF)
    (hnodup : (rules.map Prod.fst).Nodup) {c : String} {s st : NullStrategy}
    (hmem : (c, s) ∈ rules) (hne : st ≠ s) : c ∉ strategy_cols rules d st := by
  intro hc
  have : (c, st) ∈ rules := strategy_cols_mem_rules rules d st c hc
  exact hne (rules_unique_strategy rules hnodup this hmem)

theorem strategy_cols_nodup (rules : List (String × NullStrategy)) (d : DF)
    (st : NullStrategy) (hnodup : (rules.map Prod.fst).Nodup) :
    (strategy_cols rules d st).Nodup :=
  List.Nodup.sublist ((List.filter_sublist rules).map Prod.fst) hnodup

theorem mem_strategy_cols (rules : List (String × NullStrategy)) (d : DF)
    (st : NullStrategy) (c : String) (hmem : (c, st) ∈ rules) (hpres : c ∈ colNames d) :
    c ∈ strategy_cols rules d st := by
  simp only [strategy_cols, List.mem_map, List.mem_filter]
  exact ⟨(c, st), ⟨hmem, by simp [hpres]⟩, rfl⟩

theorem ffill_fold_at (l : List String) (c : String) (hnd : l.Nodup) (hc : c ∈ l)
    (d : DF) (hpres : c ∈ colNames d) :
    getColD (l.foldl (fun d x =>
        if 0 < null_count (getColD d x) then map_col d x forward_fill_col else d) d) c
      = ffill_spec (getColD d c) := by
  obtain ⟨l1, l2, rfl⟩ := List.append_of_mem hc
  have hc1 : c ∉ l1 := fun h =>
    (List.disjoint_of_nodup_append hnd) h (List.mem_cons_self c l2)
  have hc2 : c ∉ l2 := by
    have := (List.nodup_append.1 hnd).2.1
    exact (List.nodup_cons.1 this).1
  rw [List.foldl_append]
  set d1 := l1.foldl (fun d x =>
    if 0 < null_count (getColD d x) then map_col d x forward_fill_col else d) d with hd1
  have hcol1 : getColD d1 c = getColD d c :=
    getColD_fill_fold_not_mem forward_fill_col l1 c hc1 d
  have hnames1 : colNames d1 = colNames d :=
    (pure_fill_fold_props forward_fill_col length_forward_fill_col l1 d).2.1
  have hpres1 : c ∈ colNames d1 := hnames1 ▸ hpres
  simp only [List.foldl_cons]
  by_cases hg : 0 < null_count (getColD d1 c)
  · rw [if_pos hg,
        getColD_fill_fold_not_mem forward_fill_col l2 c hc2,
        getColD_map_col, if_pos ⟨rfl, hpres1⟩, hcol1,
        forward_fill_col_eq_spec]
  · rw [if_neg hg, getColD_fill_fold_not_mem forward_fill_col l2 c hc2, hcol1,
        ffill_spec_no_null _ (by rw [← hcol1]; omega)]

/-- C6 (amended): for a FORWARD_FILL column present in the batch, with
an unambiguous rule table (no duplicate rule keys, no FLAG companion
name colliding with the column), the output column equals `ffill_spec`
of the column as it stands when the FORWARD_FILL pass runs (after DROP
and FILL_ZERO): every null that has an earlier non-null value in batch
order becomes the most recent such value, and a null before the first
non-null value stays null. -/
theorem forward_fill_fills_most_recent (df : DF) (rules : List (String × NullStrategy))
    (sn : String) (c : String)
    (hnodup : (rules.map Prod.fst).Nodup)
    (hmem : (c, NullStrategy.forward_fill) ∈ rules)
    (hpres : c ∈ colNames df)
    (hnoclash : ∀ p ∈ rules, p.2 = NullStrategy.flag → p.1 ++ "_is_null" ≠ c) :
    getColD (apply_quality_rules df rules sn).1 c
      = ffill_spec (getColD (fill_zero_stage (drop_nulls_stage df rules) rules) c) := by
  rw [aqr_frame]
  have ha : getColD
      (flag_stage (forward_fill_stage (fill_zero_stage (drop_nulls_stage df rules) rules) rules)
        rules) c
      = getColD (forward_fill_stage (fill_zero_stage (drop_nulls_stage df rules) rules) rules)
          c := by
    unfold flag_stage
    exact getColD_flag_fold_ne _ c
      (fun x hx => hnoclash (x, .flag) (strategy_cols_mem_rules rules _ .flag x hx) rfl) _
  have hnames_m : colNames (fill_zero_stage (drop_nulls_stage df rules) rules) = colNames df := by
    rw [(fill_zero_stage_props _ _).2.1, colNames_drop_nulls_stage]
  have hpres_m : c ∈ colNames (fill_zero_stage (drop_nulls_stage df rules) rules) :=
    hnames_m ▸ hpres
  have hb : getColD
      (forward_fill_stage (fill_zero_stage (drop_nulls_stage df rules) rules) rules) c
      = ffill_spec (getColD (fill_zero_stage (drop_nulls_stage df rules) rules) c) := by
    unfold forward_fill_stage
    exact ffill_fold_at _ c (strategy_cols_nodup _ _ _ hnodup)
      (mem_strategy_cols _ _ _ _ hmem hpres_m) _ hpres_m
  rw [ha, hb]

/-- C6 counterexample: in a batch whose FORWARD_FILL column starts with
a null that precedes every non-null value, the output still contains
that null — not every null value is replaced by a most recent non-null
value, contradicting the claim as stated. -/
theorem forward_fill_leading_null_cex :
    getColD df_ffill_leading "temperature_c" = [none, some (.num 5)]
    ∧ getColD (apply_quality_rules df_ffill_leading ERA5_QUALITY_RULES "era5_climate").1
        "temperature_c" = [none, some (.num 5)]
    ∧ ¬ ((getColD (apply_quality_rules df_ffill_leading ERA5_QUALITY_RULES "era5_climate").1
        "temperature_c").all (fun cell => cell.isSome)) := by
  decide

/-- Witness for the amended C6 on a concrete ERA5 column
`[3, null, null, 7, null]`, whose forward fill is `[3, 3, 3, 7, 7]`. -/
theorem forward_fill_fills_most_recent_witness :
    (("temperature_c", NullStrategy.forward_fill) ∈ ERA5_QUALITY_RULES)
    ∧ getColD (apply_quality_rules
          ⟨[("temperature_c", [some (.num 3), none, none, some (.num 7), none])]⟩
          ERA5_QUALITY_RULES "era5_climate").1 "temperature_c"
      = ffill_spec (getColD
          (fill_zero_stage
            (drop_nulls_stage
              ⟨[("temperature_c", [some (.num 3), none, none, some (.num 7), none])]⟩
              ERA5_QUALITY_RULES) ERA5_QUALITY_RULES) "temperature_c") :=
  ⟨by decide,
   forward_fill_fills_most_recent
     ⟨[("temperature_c", [some (.num 3), none, none, some (.num 7), none])]⟩
     ERA5_QUALITY_RULES "era5_climate" "temperature_c"
     (by decide) (by decide) (by decide) (by decide)⟩

theorem string_append_right_cancel (a b s : String) (h : a ++ s = b ++ s) : a = b := by
  have hd : a.data ++ s.data = b.data ++ s.data := by
    have := congrArg String.data h
    simpa [String.data_append] using this
  exact String.ext (List.append_left_injective s.data hd)

theorem string_append_ne_self (a s : String) (h : s ≠ "") : a ++ s ≠ a := by
  intro he
  have h2 : (a ++ s).length = a.length := congrArg String.length he
  rw [String.length_append] at h2
  have hs : s.length = 0 := by omega
  have hdata : s.data = [] := List.length_eq_zero.1 hs
  exact h (String.ext (by simp [hdata]))

theorem getColD_add_col_self (df : DF) (n : String) (col : List Cell) :
    getColD (add_col df n col) n = col := by
  unfold add_col
  split
  next hmem =>
    unfold getColD
    dsimp only
    rw [find_map_fst_preserved df.cols _ (fst_add_entry n col) n]
    cases hf : df.cols.find? (fun p => decide (p.1 = n)) with
    | none =>
      exfalso
      obtain ⟨p, hp, hpc⟩ := List.mem_map.1 hmem
      have := List.find?_eq_none.1 hf p hp
      simp [hpc] at this
    | some q =>
      have hq1 : q.1 = n := by simpa using List.find?_some hf
      simp [hq1]
  next hmem =>
    unfold getColD
    dsimp only
    rw [List.find?_append]
    have hfn : df.cols.find? (fun p => decide (p.1 = n)) = none := by
      rw [List.find?_eq_none]
      intro p hp hdec
      exact hmem (List.mem_map.2 ⟨p, hp, by simpa using hdec⟩)
    rw [hfn]
    simp

theorem flag_fold_at (l : List String) (c : String) (hnd : l.Nodup) (hc : c ∈ l)
    (hnoclash : ∀ x ∈ l, x ++ "_is_null" ≠ c)
    (d : DF) (hnull : 0 < null_count (getColD d c)) :
    getColD (l.foldl (fun d x =>
        if 0 < null_count (getColD d x) then
          add_col d (x ++ "_is_null") (is_null_col (getColD d x))
        else d) d) (c ++ "_is_null")
      = is_null_col (getColD d c)
    ∧ getColD (l.foldl (fun d x =>
        if 0 < null_count (getColD d x) then
          add_col d (x ++ "_is_null") (is_null_col (getColD d x))
        else d) d) c
      = getColD d c := by
  obtain ⟨l1, l2, rfl⟩ := List.append_of_mem hc
  have hc1 : c ∉ l1 := fun h =>
    (List.disjoint_of_nodup_append hnd) h (List.mem_cons_self c l2)
  have hc2 : c ∉ l2 := by
    have := (List.nodup_append.1 hnd).2.1
    exact (List.nodup_cons.1 this).1
  have hnc1 : ∀ x ∈ l1, x ++ "_is_null" ≠ c :=
    fun x hx => hnoclash x (List.mem_append_left _ hx)
  have hnc2 : ∀ x ∈ l2, x ++ "_is_null" ≠ c :=
    fun x hx => hnoclash x (List.mem_append_right _ (List.mem_cons_of_mem c hx))
  have hnc2' : ∀ x ∈ l2, x ++ "_is_null" ≠ c ++ "_is_null" := by
    intro x hx he
    exact hc2 (string_append_right_cancel x c "_is_null" he ▸ hx)
  rw [List.foldl_append]
  set d1 := l1.foldl (fun d x =>
    if 0 < null_count (getColD d x) then
      add_col d (x ++ "_is_null") (is_null_col (getColD d x))
    else d) d with hd1
  have hcol1 : getColD d1 c = getColD d c := getColD_flag_fold_ne l1 c hnc1 d
  simp only [List.foldl_cons]
  rw [if_pos (by rw [hcol1]; exact hnull)]
  set d2 := add_col d1 (c ++ "_is_null") (is_null_col (getColD d1 c)) with hd2
  have hcomp : getColD d2 (c ++ "_is_null") = is_null_col (getColD d c) := by
    rw [hd2, getColD_add_col_self, hcol1]
  have hcol2 : getColD d2 c = getColD d c := by
    rw [hd2, getColD_add_col_ne _ _ _ _ (fun h => string_append_ne_self c "_is_null" (by decide) h.symm), hcol1]
  constructor
  · rw [getColD_flag_fold_ne l2 (c ++ "_is_null") hnc2' d2, hcomp]
  · rw [getColD_flag_fold_ne l2 c hnc2 d2, hcol2]

/-- C5 (amended): for a FLAG column `c` present in the batch whose column
still has a null when the FLAG pass runs (after DROP, FILL_ZERO and
FORWARD_FILL), and an unambiguous rule table, the output batch contains
the companion boolean column `c_is_null` that is true exactly on the
rows where `c` is null in the output, and the FLAG pass leaves the
values of `c` (in particular its nulls) unchanged.  The C5
counterexample shows the companion is omitted when the column has no
null at that point. -/
theorem flag_adds_companion (df : DF) (rules : List (String × NullStrategy))
    (sn : String) (c : String)
    (hnodup : (rules.map Prod.fst).Nodup)
    (hmem : (c, NullStrategy.flag) ∈ rules)
    (hpres : c ∈ colNames df)
    (hnoclash : ∀ p ∈ rules, p.2 = NullStrategy.flag → p.1 ++ "_is_null" ≠ c)
    (hnull : 0 < null_count (getColD
      (forward_fill_stage (fill_zero_stage (drop_nulls_stage df rules) rules) rules) c)) :
    getColD (apply_quality_rules df rules sn).1 (c ++ "_is_null")
      = is_null_col (getColD (apply_quality_rules df rules sn).1 c)
    ∧ getColD (apply_quality_rules df rules sn).1 c
      = getColD (forward_fill_stage (fill_zero_stage (drop_nulls_stage df rules) rules) rules)
          c := by
  rw [aqr_frame]
  have hnames3 : colNames
      (forward_fill_stage (fill_zero_stage (drop_nulls_stage df rules) rules) rules)
      = colNames df := by
    rw [(forward_fill_stage_props _ _).2.1, (fill_zero_stage_props _ _).2.1,
        colNames_drop_nulls_stage]
  have hpres3 : c ∈ colNames
      (forward_fill_stage (fill_zero_stage (drop_nulls_stage df rules) rules) rules) :=
    hnames3 ▸ hpres
  have hcin : c ∈ strategy_cols rules
      (forward_fill_stage (fill_zero_stage (drop_nulls_stage df rules) rules) rules) .flag :=
    mem_strategy_cols _ _ _ _ hmem hpres3
  have hfold := flag_fold_at
    (strategy_cols rules
      (forward_fill_stage (fill_zero_stage (drop_nulls_stage df rules) rules) rules) .flag)
    c (strategy_cols_nodup _ _ _ hnodup) hcin
    (fun x hx => hnoclash (x, .flag) (strategy_cols_mem_rules rules _ .flag x hx) rfl)
    (forward_fill_stage (fill_zero_stage (drop_nulls_stage df rules) rules) rules) hnull
  unfold flag_stage
  exact ⟨hfold.1.trans (congrArg is_null_col hfold.2.symm), hfold.2⟩

/-- C5 counterexample: `consommation_mw` carries the FLAG strategy and is
present in the batch, yet because it has no null the companion column
`consommation_mw_is_null` is absent from the output — the claim as
stated requires it for every present FLAG column. -/
theorem flag_no_null_no_companion_cex :
    ("consommation_mw", NullStrategy.flag) ∈ RTE_QUALITY_RULES
    ∧ "consommation_mw" ∈ colNames df_flag_no_null
    ∧ "consommation_mw_is_null"
        ∉ colNames (apply_quality_rules df_flag_no_null RTE_QUALITY_RULES "rte_production").1 := by
  decide

/-- Witness for the amended C5 on a concrete batch whose FLAG column is
`[4, null]`: the companion `[false, true]` appears and the column is
unchanged. -/
theorem flag_adds_companion_witness :
    (("consommation_mw", NullStrategy.flag) ∈ RTE_QUALITY_RULES)
    ∧ (getColD (apply_quality_rules ⟨[("consommation_mw", [some (.num 4), none])]⟩
          RTE_QUALITY_RULES "rte_production").1 ("consommation_mw" ++ "_is_null")
        = is_null_col (getColD (apply_quality_rules
            ⟨[("consommation_mw", [some (.num 4), none])]⟩
            RTE_QUALITY_RULES "rte_production").1 "consommation_mw")
      ∧ getColD (apply_quality_rules ⟨[("consommation_mw", [some (.num 4), none])]⟩
          RTE_QUALITY_RULES "rte_production").1 "consommation_mw"
        = getColD (forward_fill_stage (fill_zero_stage
            (drop_nulls_stage ⟨[("consommation_mw", [some (.num 4), none])]⟩ RTE_QUALITY_RULES)
            RTE_QUALITY_RULES) RTE_QUALITY_RULES) "consommation_mw") :=
  ⟨by decide,
   flag_adds_companion ⟨[("consommation_mw", [some (.num 4), none])]⟩
     RTE_QUALITY_RULES "rte_production" "consommation_mw"
     (by decide) (by decide) (by decide) (by decide) (by decide)⟩

theorem keep_last_by_sublist {α κ : Type} [DecidableEq κ] (key : α → κ) :
    ∀ l : List α, (keep_last_by key l).Sublist l := by
  intro l
  induction l with
  | nil => exact List.Sublist.refl []
  | cons x xs ih =>
    unfold keep_last_by
    split
    · exact ih.cons x
    · exact ih.cons₂ x

theorem keep_last_by_filter {α κ : Type} [DecidableEq κ] (key : α → κ) (k : κ) :
    ∀ l : List α, (keep_last_by key l).filter (fun x => decide (key x = k))
      = ((l.filter (fun x => decide (key x = k))).getLast?).toList := by
  intro l
  induction l with
  | nil => rfl
  | cons x xs ih =>
    unfold keep_last_by
    by_cases hany : xs.any (fun y => decide (key y = key x)) = true
    · rw [if_pos hany, ih]
      by_cases hk : key x = k
      · have hfn : xs.filter (fun y => decide (key y = k)) ≠ [] := by
          obtain ⟨y, hy, hyk⟩ := List.any_eq_true.1 hany
          intro hnil
          have : y ∈ xs.filter (fun y => decide (key y = k)) :=
            List.mem_filter.2 ⟨hy, by simp [of_decide_eq_true hyk, hk]⟩
          rw [hnil] at this
          exact absurd this (List.not_mem_nil _)
        rw [List.filter_cons, if_pos (by simp [hk])]
        cases hfx : xs.filter (fun y => decide (key y = k)) with
        | nil => exact absurd hfx hfn
        | cons b bs => rw [List.getLast?_cons_cons]
      · rw [List.filter_cons, if_neg (by simp [hk])]
    · rw [if_neg hany]
      by_cases hk : key x = k
      · have hfe : xs.filter (fun y => decide (key y = k)) = [] := by
          rw [List.filter_eq_nil]
          intro y hy hdec
          exact hany (List.any_eq_true.2
            ⟨y, hy, decide_eq_true ((of_decide_eq_true hdec).trans hk.symm)⟩)
        rw [List.filter_cons, if_pos (by simp [hk]),
            List.filter_cons, if_pos (by simp [hk]), hfe, ih, hfe]
        rfl
      · rw [List.filter_cons, if_neg (by simp [hk]),
            List.filter_cons, if_neg (by simp [hk]), ih]

theorem keep_last_by_pairwise {α κ : Type} [DecidableEq κ] (key : α → κ) :
    ∀ l : List α, (keep_last_by key l).Pairwise (fun a b => key a ≠ key b) := by
  intro l
  induction l with
  | nil => exact List.Pairwise.nil
  | cons x xs ih =>
    unfold keep_last_by
    split
    · exact ih
    · next hany =>
      refine List.Pairwise.cons ?_ ih
      intro b hb he
      exact hany (List.any_eq_true.2
        ⟨b, (keep_last_by_sublist key xs).subset hb, by simp [he.symm]⟩)

theorem getColD_absent (df : DF) (c : String) (h : c ∉ colNames df) :
    getColD df c = [] := by
  unfold getColD
  have hfn : df.cols.find? (fun p => decide (p.1 = c)) = none := by
    rw [List.find?_eq_none]
    intro p hp hdec
    exact h (List.mem_map.2 ⟨p, hp, by simpa using hdec⟩)
  rw [hfn]
  rfl

theorem getColD_filter_rows (df : DF) (idxs : List Nat) (c : String) :
    getColD (filter_rows df idxs) c
      = if c ∈ colNames df then idxs.map (fun i => ((getColD df c).get? i).getD none)
        else [] := by
  unfold filter_rows
  conv_lhs => unfold getColD
  dsimp only
  rw [find_map_fst_preserved df.cols
      (fun p => (p.1, idxs.map (fun i => (p.2.get? i).getD none))) (fun p => rfl) c]
  cases hf : df.cols.find? (fun p => decide (p.1 = c)) with
  | none =>
    rw [if_neg]
    · rfl
    · intro hmem
      obtain ⟨p, hp, hpc⟩ := List.mem_map.1 hmem
      have := List.find?_eq_none.1 hf p hp
      simp [hpc] at this
  | some q =>
    have hq1 : q.1 = c := by simpa using List.find?_some hf
    rw [if_pos (show c ∈ colNames df from
      List.mem_map.2 ⟨q, List.mem_of_find?_eq_some hf, hq1⟩)]
    have : getColD df c = q.2 := by unfold getColD; rw [hf]; rfl
    rw [this]
    rfl

theorem cellAt_filter_rows (df : DF) (idxs : List Nat) (c : String) (n i : Nat)
    (hn : idxs.get? n = some i) : cellAt (filter_rows df idxs) c n = cellAt df c i := by
  unfold cellAt
  rw [getColD_filter_rows]
  split
  · rw [List.get?_map, hn]
    rfl
  · next habs =>
    rw [getColD_absent df c habs]
    rfl

theorem rowAt_filter_rows (df : DF) (idxs : List Nat) (n i : Nat)
    (hn : idxs.get? n = some i) : rowAt (filter_rows df idxs) n = rowAt df i := by
  unfold rowAt filter_rows
  dsimp only
  rw [List.map_map]
  apply List.map_congr_left
  intro p _
  dsimp only [Function.comp]
  rw [List.get?_map, hn]
  rfl

theorem keyAt_filter_rows (df : DF) (idxs : List Nat) (subset : List String) (n i : Nat)
    (hn : idxs.get? n = some i) :
    keyAt (filter_rows df idxs) subset n = keyAt df subset i := by
  unfold keyAt
  apply List.map_congr_left
  intro c _
  exact cellAt_filter_rows df idxs c n i hn

theorem tagged_rows_unique_keep_last (df : DF) (subset : List String) (hcols : df.cols ≠ []) :
    tagged_rows (unique_keep_last df subset) subset
      = (keep_last_by (keyAt df subset) (List.range (height df))).map
          (fun i => (rowAt df i, keyAt df subset i)) := by
  unfold tagged_rows unique_keep_last
  rw [height_filter_rows df _ hcols]
  apply List.ext_get?
  intro n
  rw [List.get?_map, List.get?_map, get?_range]
  by_cases hn : n < (keep_last_by (keyAt df subset) (List.range (height df))).length
  · rw [if_pos hn]
    cases hkn : (keep_last_by (keyAt df subset) (List.range (height df))).get? n with
    | none =>
      exfalso
      rw [List.get?_eq_none] at hkn
      omega
    | some i =>
      simp only [Option.map_some']
      rw [rowAt_filter_rows df _ n i hkn, keyAt_filter_rows df _ subset n i hkn]
  · rw [if_neg hn]
    rw [List.get?_eq_none.2 (by omega)]
    rfl

theorem cols_ne_nil_of_mem (d : DF) (c : String) (h : c ∈ colNames d) : d.cols ≠ [] := by
  intro hn
  simp [colNames, hn] at h

theorem dedupedOn_unique_keep_last (df : DF) (subset : List String) (hcols : df.cols ≠ []) :
    dedupedOn (unique_keep_last df subset) subset := by
  unfold dedupedOn
  have hkeys : (List.range (height (unique_keep_last df subset))).map
        (keyAt (unique_keep_last df subset) subset)
      = (keep_last_by (keyAt df subset) (List.range (height df))).map (keyAt df subset) := by
    have hb := congrArg (List.map Prod.snd) (tagged_rows_unique_keep_last df subset hcols)
    simpa [tagged_rows, List.map_map, Function.comp] using hb
  rw [hkeys]
  exact (keep_last_by_pairwise (keyAt df subset) (List.range (height df))).map
    (keyAt df subset) (fun a b h => h)

/-- C2: deduplication keeps exactly the last record per natural key —
for every frame and key tuple `k`, the rows of
`df.unique(subset, keep="last")` whose key is `k` are exactly the last
input row carrying `k` (and none when `k` never occurs); in the
telemetry transformer this dedup (on
`(code_insee_region, date_heure)`) is what feeds the quality stage. -/
theorem dedup_last_write_wins (df : DF) (subset : List String) (k : List Cell)
    (hcols : df.cols ≠ []) :
    ((tagged_rows (unique_keep_last df subset) subset).filter (fun p => decide (p.2 = k))
        = ((tagged_rows df subset).filter (fun p => decide (p.2 = k))).getLast?.toList)
    ∧ ("code_insee_region" ∈ colNames df ∧ "date_heure" ∈ colNames df →
        rte_quality_input df = unique_keep_last df ["code_insee_region", "date_heure"]) := by
  constructor
  · rw [tagged_rows_unique_keep_last df subset hcols]
    unfold tagged_rows
    rw [List.filter_map, List.filter_map]
    simp only [Function.comp_def]
    rw [keep_last_by_filter, List.getLast?_map]
    cases ((List.range (height df)).filter
        (fun i => decide (keyAt df subset i = k))).getLast? <;> rfl
  · intro hp
    unfold rte_quality_input rte_dedup
    rw [if_pos hp]

/-- Witness for C2 at the three-row RTE batch `df_rte_dup`, whose first
two rows share the key `("11", 2025-06-15 10:00)` with different
`consommation_mw` values: the deduplicated batch keeps exactly the
second row for that key. -/
theorem dedup_last_write_wins_witness :
    ((tagged_rows (unique_keep_last df_rte_dup ["code_insee_region", "date_heure"])
          ["code_insee_region", "date_heure"]).filter
        (fun p => decide (p.2 = [some (.str "11"), some (.str "2025-06-15 10:00:00")]))
      = ((tagged_rows df_rte_dup ["code_insee_region", "date_heure"]).filter
          (fun p =>
            decide (p.2 = [some (.str "11"), some (.str "2025-06-15 10:00:00")]))).getLast?.toList)
    ∧ ("code_insee_region" ∈ colNames df_rte_dup ∧ "date_heure" ∈ colNames df_rte_dup →
        rte_quality_input df_rte_dup
          = unique_keep_last df_rte_dup ["code_insee_region", "date_heure"]) :=
  dedup_last_write_wins df_rte_dup ["code_insee_region", "date_heure"]
    [some (.str "11"), some (.str "2025-06-15 10:00:00")] (by decide)

/-- C4 counterexample: the climate and capacity transformers hand
`apply_quality_rules` a batch that still contains duplicated natural
keys — the batch reaching the quality stage is *not* already
deduplicated, contradicting the claim that every transformer dedups
before the quality engine. -/
theorem quality_before_dedup_cex :
    ¬ dedupedOn (era5_quality_input id df_era5_dup) ["region_code", "valid_time"]
    ∧ ¬ dedupedOn (capacity_quality_input
          ⟨[("code_insee_region", [some (.str "11"), some (.str "11")]),
            ("filiere", [some (.str "eolien"), some (.str "eolien")]),
            ("puissance_installee_mw", [some (.num 1), some (.num 2)])]⟩)
        ["code_insee_region", "filiere"] := by
  constructor
  · decide
  · decide

/-- C4 (amended): only the telemetry transformer deduplicates before the
quality engine — its quality input is always deduplicated on
`(code_insee_region, date_heure)`; the climate and capacity
transformers apply the quality rules to the un-deduplicated batch and
deduplicate afterwards, so (only) their final outputs are deduplicated
on their natural keys. -/
theorem dedup_stage_order (df : DF) (sqrt_fn : ℚ → ℚ) :
    ("code_insee_region" ∈ colNames df ∧ "date_heure" ∈ colNames df →
      dedupedOn (rte_quality_input df) ["code_insee_region", "date_heure"])
    ∧ ("region_code" ∈ colNames
          ((apply_quality_rules (era5_quality_input sqrt_fn df) ERA5_QUALITY_RULES
            "era5_climate").1)
        ∧ "valid_time" ∈ colNames
          ((apply_quality_rules (era5_quality_input sqrt_fn df) ERA5_QUALITY_RULES
            "era5_climate").1) →
      dedupedOn (transform_era5_core sqrt_fn df) ["region_code", "valid_time"])
    ∧ ("code_insee_region" ∈ colNames
          ((apply_quality_rules (capacity_quality_input df) CAPACITY_QUALITY_RULES "capacity").1)
        ∧ "filiere" ∈ colNames
          ((apply_quality_rules (capacity_quality_input df) CAPACITY_QUALITY_RULES "capacity").1) →
      dedupedOn (transform_capacity_core df) ["code_insee_region", "filiere"]) := by
  refine ⟨?_, ?_, ?_⟩
  · intro hp
    unfold rte_quality_input rte_dedup
    rw [if_pos hp]
    exact dedupedOn_unique_keep_last df _ (cols_ne_nil_of_mem df _ hp.1)
  · intro hp
    unfold transform_era5_core
    dsimp only
    rw [if_pos hp]
    exact dedupedOn_unique_keep_last _ _ (cols_ne_nil_of_mem _ _ hp.1)
  · intro hp
    unfold transform_capacity_core
    dsimp only
    have hdc : ["code_insee_region", "filiere"].filter
        (fun c => decide (c ∈ colNames
          ((apply_quality_rules (capacity_quality_input df) CAPACITY_QUALITY_RULES
            "capacity").1)))
        = ["code_insee_region", "filiere"] := by
      simp [List.filter, hp.1, hp.2]
    rw [hdc]
    rw [if_neg (by decide)]
    exact dedupedOn_unique_keep_last _ _ (cols_ne_nil_of_mem _ _ hp.1)

/-- Witness for the amended C4: the RTE quality input for `df_rte_dup`
is deduplicated, and the ERA5/capacity final outputs are deduplicated
even though their quality stage ran first. -/
theorem dedup_stage_order_witness :
    (("code_insee_region" ∈ colNames df_rte_dup ∧ "date_heure" ∈ colNames df_rte_dup)
      ∧ dedupedOn (rte_quality_input df_rte_dup) ["code_insee_region", "date_heure"])
    ∧ dedupedOn (transform_era5_core id df_era5_dup) ["region_code", "valid_time"] :=
  ⟨⟨by decide,
    (dedup_stage_order df_rte_dup id).1 (by decide)⟩,
   (dedup_stage_order df_era5_dup id).2.1 (by decide)⟩

theorem select_update_eq_map (regions : List DimRegionRow) (p : DimRegionRow → Bool)
    (upd : DimRegionRow → DimRegionRow)
    (hnd : (regions.map (·.code_insee_region)).Nodup) :
    regions.map (fun r =>
        if r.code_insee_region ∈ (regions.filter p).map (·.code_insee_region) then upd r
        else r)
      = regions.map (fun r => if p r then upd r else r) := by
  apply List.map_congr_left
  intro r hr
  by_cases hp : p r
  · rw [if_pos (List.mem_map.2 ⟨r, List.mem_filter.2 ⟨hr, hp⟩, rfl⟩), if_pos hp]
  · rw [if_neg ?_, if_neg hp]
    intro hmem
    obtain ⟨r2, hr2, hcode⟩ := List.mem_map.1 hmem
    obtain ⟨hr2m, hp2⟩ := List.mem_filter.1 hr2
    rw [List.inj_on_of_nodup_map hnd hr2m hr hcode] at hp2
    exact hp hp2

theorem map_code_update (regions : List DimRegionRow) (p : DimRegionRow → Bool)
    (st : RegionStatus) :
    (regions.map (fun r => if p r then { r with status := st } else r)).map
        (·.code_insee_region)
      = regions.map (·.code_insee_region) := by
  rw [List.map_map]
  apply List.map_congr_left
  intro r _
  dsimp only [Function.comp]
  split <;> rfl

/-- C3: one `check_staleness(now)` pass sends every `active`-or-`stale`
region unseen longer than the inactive threshold to `inactive` (so an
`active` region can jump straight to `inactive`), sends every remaining
`active` region unseen longer than the staleness threshold to `stale`,
leaves everything else untouched, and deletes no row — the region list
keeps its length.  (DIM_REGION's `code_insee` is UNIQUE, hence the
no-duplicate-codes hypothesis.) -/
theorem check_staleness_transitions (regions : List DimRegionRow)
    (now staleness_hours inactive_hours : ℤ)
    (hnd : (regions.map (·.code_insee_region)).Nodup) :
    ((check_staleness regions now staleness_hours inactive_hours).1).length = regions.length
    ∧ (check_staleness regions now staleness_hours inactive_hours).1
        = regions.map (lifecycle_expected now staleness_hours inactive_hours) := by
  unfold check_staleness mark_inactive mark_stale
  dsimp only
  rw [select_update_eq_map regions
      (fun r => decide ((r.status = .active ∨ r.status = .stale)
        ∧ r.last_seen_at < now - inactive_hours))
      (fun r => { r with status := .inactive }) hnd]
  rw [select_update_eq_map _
      (fun r => decide (r.status = .active ∧ r.last_seen_at < now - staleness_hours))
      (fun r => { r with status := .stale })
      (by rw [map_code_update]; exact hnd)]
  rw [List.map_map]
  constructor
  · exact List.length_map _ _
  · apply List.map_congr_left
    intro r _
    dsimp only [Function.comp]
    unfold lifecycle_expected
    by_cases h1 : (r.status = .active ∨ r.status = .stale)
        ∧ r.last_seen_at < now - inactive_hours
    · have hg1 : (if decide ((r.status = .active ∨ r.status = .stale)
            ∧ r.last_seen_at < now - inactive_hours) = true
          then { r with status := RegionStatus.inactive } else r)
          = { r with status := RegionStatus.inactive } := if_pos (decide_eq_true h1)
      rw [hg1, if_pos h1, if_neg (by simp)]
    · have hg1 : (if decide ((r.status = .active ∨ r.status = .stale)
            ∧ r.last_seen_at < now - inactive_hours) = true
          then { r with status := RegionStatus.inactive } else r) = r :=
        if_neg (by simpa using h1)
      rw [hg1, if_neg h1]
      by_cases h2 : r.status = .active ∧ r.last_seen_at < now - staleness_hours
      · rw [if_pos (decide_eq_true h2), if_pos h2]
      · rw [if_neg (by simpa using h2), if_neg h2]

/-- Witness for C3 at `now = 1000h` with default thresholds (24h/168h):
region "11" (unseen 48h) becomes stale, region "84" (unseen 200h) jumps
from active straight to inactive, region "93" (unseen 1h) stays active,
and the row count stays 3. -/
theorem check_staleness_transitions_witness :
    (regions_witness.map (·.code_insee_region)).Nodup
    ∧ (((check_staleness regions_witness 1000 24 168).1).length = regions_witness.length
      ∧ (check_staleness regions_witness 1000 24 168).1
          = regions_witness.map (lifecycle_expected 1000 24 168)) :=
  ⟨by decide, check_staleness_transitions regions_witness 1000 24 168 (by decide)⟩

theorem facteur_of_eq_spec (caps : List (String × ℚ)) (src : String) (v : ℚ) :
    facteur_of caps src v = spec_facteur caps src v := by
  unfold facteur_of spec_facteur
  cases caps.lookup src with
  | none => rfl
  | some c =>
    dsimp only
    by_cases hc : 0 < c
    · simp [hc.ne', hc]
    · by_cases hz : c = 0
      · simp [hz]
      · simp [hz, hc]

theorem row_inserts_fold_facteur (caps : List (String × ℚ)) (db : GoldDB) (r : SRow)
    (idT idR : Option Nat) :
    ∀ (l : List (String × String)) (p : FactInsert),
      p ∈ l.foldr (fun q acc =>
        match r.measures.lookup q.1 with
        | some (some v) =>
          (match get_source_id db q.2 with
           | some ids =>
             if ids = 0 then acc
             else
               { id_date := idT.getD 0
                 id_region := idR.getD 0
                 id_source := ids
                 valeur_mw := v
                 facteur_charge := facteur_of caps q.2 v
                 temperature_moyenne := py_truthy_or r.temperature_c r.temperature_moyenne
                 src_name := q.2 } :: acc
           | none => acc)
        | _ => acc) [] →
      p.facteur_charge = facteur_of caps p.src_name p.valeur_mw := by
  intro l
  induction l with
  | nil => intro p hp; exact absurd hp (List.not_mem_nil p)
  | cons q l ih =>
    intro p hp
    simp only [List.foldr_cons] at hp
    cases hm : r.measures.lookup q.1 with
    | none => rw [hm] at hp; exact ih p hp
    | some ov =>
      cases ov with
      | none => rw [hm] at hp; exact ih p hp
      | some v =>
        rw [hm] at hp
        cases hs : get_source_id db q.2 with
        | none => rw [hs] at hp; exact ih p hp
        | some ids =>
          rw [hs] at hp
          dsimp only at hp
          by_cases hz : ids = 0
          · rw [if_pos hz] at hp; exact ih p hp
          · rw [if_neg hz] at hp
            rcases List.mem_cons.1 hp with h | h
            · subst h; rfl
            · exact ih p h

theorem row_inserts_facteur (caps : List (String × ℚ)) (db : GoldDB) (b : SilverBatch)
    (r : SRow) (p : FactInsert) (hp : p ∈ row_inserts caps db b r) :
    p.facteur_charge = facteur_of caps p.src_name p.valeur_mw := by
  unfold row_inserts at hp
  dsimp only at hp
  by_cases hres : (not_truthy (get_region_id db (region_code_of b r))
      || not_truthy (match r.date_heure with
        | some ts => get_time_id db ts
        | none => none)) = true
  · rw [if_pos hres] at hp
    exact absurd hp (List.not_mem_nil p)
  · rw [if_neg hres] at hp
    exact row_inserts_fold_facteur caps db r _ _ SOURCE_COLUMN_MAP p hp

/-- C8: every fact row written by `load_from_silver` carries
`facteur_charge = valeur_mw / installed_capacity` rounded to 4 decimal
places when the capacity of its source is known and strictly positive,
and null otherwise (`spec_facteur` states the claim verbatim; the
inserts are what the upsert stores). -/
theorem load_factor_computation (parse_ok : String → Bool) (caps : List (String × ℚ))
    (db : GoldDB) (b : SilverBatch) (p : FactInsert)
    (hp : p ∈ fact_inserts caps (dims_after parse_ok db b) b) :
    p.facteur_charge = spec_facteur caps p.src_name p.valeur_mw := by
  unfold fact_inserts at hp
  obtain ⟨r, _, hpr⟩ := List.mem_flatMap.1 hp
  rw [← facteur_of_eq_spec]
  exact row_inserts_facteur caps _ b r p hpr

/-- Witness for C8: in the concrete batch `sb_witness` the eolien insert
(capacity unknown) stores a null load factor, as `spec_facteur`
prescribes. -/
theorem load_factor_computation_witness :
    ((⟨⟨1, 1, 2, 100, none, some 21⟩, "eolien"⟩ : FactInsert)
        ∈ fact_inserts caps_witness (dims_after parse_ok_witness empty_gold sb_witness)
          sb_witness)
    ∧ (⟨⟨1, 1, 2, 100, none, some 21⟩, "eolien"⟩ : FactInsert).facteur_charge
        = spec_facteur caps_witness
            (⟨⟨1, 1, 2, 100, none, some 21⟩, "eolien"⟩ : FactInsert).src_name
            (⟨⟨1, 1, 2, 100, none, some 21⟩, "eolien"⟩ : FactInsert).valeur_mw :=
  ⟨by decide,
   load_factor_computation parse_ok_witness caps_witness empty_gold sb_witness _ (by decide)⟩

theorem upsert_source_names_mono (db : GoldDB) (q : String × Bool) (n : String)
    (h : n ∈ source_names db) : n ∈ source_names (upsert_source db q) := by
  unfold upsert_source
  cases db.sources.find? (fun s => s.source_name = q.1) with
  | some s0 =>
    dsimp only [source_names] at h ⊢
    obtain ⟨s, hs, hsn⟩ := List.mem_map.1 h
    refine List.mem_map.2 ⟨if s.source_name = q.1 then { s with is_green := q.2 } else s, ?_, ?_⟩
    · exact List.mem_map.2 ⟨s, hs, rfl⟩
    · split <;> simp [hsn]
  | none =>
    dsimp only [source_names] at h ⊢
    rw [List.map_append]
    exact List.mem_append_left _ h

theorem upsert_source_names_self (db : GoldDB) (q : String × Bool) :
    q.1 ∈ source_names (upsert_source db q) := by
  unfold upsert_source
  cases hf : db.sources.find? (fun s => s.source_name = q.1) with
  | some s0 =>
    have hs0 : s0.source_name = q.1 := by simpa using List.find?_some hf
    dsimp only [source_names]
    refine List.mem_map.2
      ⟨if s0.source_name = q.1 then { s0 with is_green := q.2 } else s0,
       List.mem_map.2 ⟨s0, List.mem_of_find?_eq_some hf, rfl⟩, ?_⟩
    rw [if_pos hs0]
    simpa using hs0
  | none =>
    dsimp only [source_names]
    rw [List.map_append]
    exact List.mem_append_right _ (by simp)

theorem upsert_sources_fold_names_mono :
    ∀ (cat : List (String × Bool)) (db : GoldDB) (n : String),
      n ∈ source_names db → n ∈ source_names (cat.foldl upsert_source db) := by
  intro cat
  induction cat with
  | nil => intro db n h; exact h
  | cons q rest ih =>
    intro db n h
    exact ih (upsert_source db q) n (upsert_source_names_mono db q n h)

theorem mem_source_names_fold :
    ∀ (cat : List (String × Bool)) (db : GoldDB) (n : String),
      n ∈ cat.map Prod.fst → n ∈ source_names (cat.foldl upsert_source db) := by
  intro cat
  induction cat with
  | nil => intro db n h; exact absurd h (List.not_mem_nil n)
  | cons q rest ih =>
    intro db n h
    simp only [List.map_cons, List.mem_cons] at h
    rcases h with h | h
    · subst h
      exact upsert_sources_fold_names_mono rest _ _ (upsert_source_names_self db q)
    · exact ih _ n h

theorem upsert_source_wf (db : GoldDB) (q : String × Bool) (h : sources_wf db) :
    sources_wf (upsert_source db q) := by
  unfold upsert_source
  cases db.sources.find? (fun s => s.source_name = q.1) with
  | some s0 =>
    refine ⟨?_, h.2⟩
    intro s hs
    obtain ⟨s1, hs1, rfl⟩ := List.mem_map.1 hs
    have := h.1 s1 hs1
    split <;> simpa
  | none =>
    refine ⟨?_, by simpa using h.2⟩
    intro s hs
    rcases List.mem_append.1 hs with hs | hs
    · exact h.1 s hs
    · simp at hs
      rw [hs]
      exact h.2

theorem upsert_sources_fold_wf :
    ∀ (cat : List (String × Bool)) (db : GoldDB),
      sources_wf db → sources_wf (cat.foldl upsert_source db) := by
  intro cat
  induction cat with
  | nil => intro db h; exact h
  | cons q rest ih => intro db h; exact ih _ (upsert_source_wf db q h)

theorem upsert_region_keeps_sources (db : GoldDB) (q : String × String) :
    (upsert_region db q).sources = db.sources
    ∧ (upsert_region db q).next_source_id = db.next_source_id := by
  unfold upsert_region
  cases db.regions.find? (fun r => r.code_insee = q.1) <;> exact ⟨rfl, rfl⟩

theorem upsert_time_keeps_sources (parse_ok : String → Bool) (db : GoldDB) (ts : String) :
    (upsert_time parse_ok db ts).sources = db.sources
    ∧ (upsert_time parse_ok db ts).next_source_id = db.next_source_id := by
  unfold upsert_time
  split
  · cases db.times.find? (fun t => t.horodatage = ts) <;> exact ⟨rfl, rfl⟩
  · exact ⟨rfl, rfl⟩

theorem region_fold_keeps_sources :
    ∀ (l : List (String × String)) (db : GoldDB),
      (l.foldl upsert_region db).sources = db.sources
      ∧ (l.foldl upsert_region db).next_source_id = db.next_source_id := by
  intro l
  induction l with
  | nil => intro db; exact ⟨rfl, rfl⟩
  | cons q rest ih =>
    intro db
    obtain ⟨h1, h2⟩ := ih (upsert_region db q)
    obtain ⟨h3, h4⟩ := upsert_region_keeps_sources db q
    exact ⟨h1.trans h3, h2.trans h4⟩

theorem time_fold_keeps_sources (parse_ok : String → Bool) :
    ∀ (l : List (Option String)) (db : GoldDB),
      ((l.foldl (fun d o => match o with
        | some ts => upsert_time parse_ok d ts
        | none => d) db).sources = db.sources
      ∧ (l.foldl (fun d o => match o with
        | some ts => upsert_time parse_ok d ts
        | none => d) db).next_source_id = db.next_source_id) := by
  intro l
  induction l with
  | nil => intro db; exact ⟨rfl, rfl⟩
  | cons o rest ih =>
    intro db
    cases o with
    | none => exact ih db
    | some ts =>
      obtain ⟨h1, h2⟩ := ih (upsert_time parse_ok db ts)
      obtain ⟨h3, h4⟩ := upsert_time_keeps_sources parse_ok db ts
      exact ⟨h1.trans h3, h2.trans h4⟩

theorem dims_after_sources (parse_ok : String → Bool) (db : GoldDB) (b : SilverBatch) :
    (dims_after parse_ok db b).sources = (upsert_sources db).sources
    ∧ (dims_after parse_ok db b).next_source_id = (upsert_sources db).next_source_id := by
  unfold dims_after
  dsimp only
  split
  · split
    · unfold upsert_times_from
      obtain ⟨h1, h2⟩ := time_fold_keeps_sources parse_ok (ts_values b)
        ((clean_region_pairs b).foldl upsert_region (upsert_sources db))
      obtain ⟨h3, h4⟩ := region_fold_keeps_sources (clean_region_pairs b) (upsert_sources db)
      exact ⟨h1.trans h3, h2.trans h4⟩
    · unfold upsert_times_from
      exact time_fold_keeps_sources parse_ok (ts_values b) (upsert_sources db)
  · split
    · exact region_fold_keeps_sources (clean_region_pairs b) (upsert_sources db)
    · exact ⟨rfl, rfl⟩

theorem get_source_id_resolves (db : GoldDB) (n : String)
    (hpres : n ∈ source_names db) (hwf : ∀ s ∈ db.sources, s.id_source ≠ 0) :
    ∃ ids, get_source_id db n = some ids ∧ ids ≠ 0 := by
  unfold get_source_id
  cases hf : db.sources.find? (fun s => s.source_name = n) with
  | none =>
    exfalso
    obtain ⟨s, hs, hsn⟩ := List.mem_map.1 hpres
    have := List.find?_eq_none.1 hf s hs
    simp [hsn] at this
  | some s =>
    exact ⟨s.id_source, rfl, hwf s (List.mem_of_find?_eq_some hf)⟩

theorem dims_after_source_resolves (parse_ok : String → Bool) (db : GoldDB) (b : SilverBatch)
    (hwfS : sources_wf db) :
    ∀ q ∈ SOURCE_COLUMN_MAP,
      ∃ ids, get_source_id (dims_after parse_ok db b) q.2 = some ids ∧ ids ≠ 0 := by
  intro q hq
  have hall : ∀ x ∈ SOURCE_COLUMN_MAP, x.2 ∈ default_source_catalog.map Prod.fst := by
    decide
  have hcat : q.2 ∈ default_source_catalog.map Prod.fst := hall q hq
  obtain ⟨hsrc, hcnt⟩ := dims_after_sources parse_ok db b
  have hpres : q.2 ∈ source_names (dims_after parse_ok db b) := by
    unfold source_names
    rw [hsrc]
    exact mem_source_names_fold default_source_catalog db q.2 hcat
  have hwf2 : ∀ s ∈ (dims_after parse_ok db b).sources, s.id_source ≠ 0 := by
    rw [hsrc]
    exact (upsert_sources_fold_wf default_source_catalog db hwfS).1
  exact get_source_id_resolves _ _ hpres hwf2

theorem row_inserts_fold_length (caps : List (String × ℚ)) (db : GoldDB) (r : SRow)
    (idT idR : Option Nat) :
    ∀ l : List (String × String),
      (∀ q ∈ l, ∃ ids, get_source_id db q.2 = some ids ∧ ids ≠ 0) →
      (l.foldr (fun q acc =>
        match r.measures.lookup q.1 with
        | some (some v) =>
          (match get_source_id db q.2 with
           | some ids =>
             if ids = 0 then acc
             else
               { id_date := idT.getD 0
                 id_region := idR.getD 0
                 id_source := ids
                 valeur_mw := v
                 facteur_charge := facteur_of caps q.2 v
                 temperature_moyenne := py_truthy_or r.temperature_c r.temperature_moyenne
                 src_name := q.2 } :: acc
           | none => acc)
        | _ => acc) ([] : List FactInsert)).length
      = (l.filter (fun q =>
          match r.measures.lookup q.1 with
          | some (some _) => true
          | _ => false)).length := by
  intro l
  induction l with
  | nil => intro _; rfl
  | cons q rest ih =>
    intro hsrc
    have hrest := ih (fun x hx => hsrc x (List.mem_cons_of_mem q hx))
    simp only [List.foldr_cons, List.filter_cons]
    cases hm : r.measures.lookup q.1 with
    | none =>
      dsimp only
      simpa using hrest
    | some ov =>
      cases ov with
      | none =>
        dsimp only
        simpa using hrest
      | some v =>
        obtain ⟨ids, hids, hnz⟩ := hsrc q (List.mem_cons_self q rest)
        rw [hids]
        dsimp only
        rw [if_neg hnz]
        simpa using hrest

theorem row_inserts_length (caps : List (String × ℚ)) (db : GoldDB) (b : SilverBatch)
    (r : SRow)
    (hsrc : ∀ q ∈ SOURCE_COLUMN_MAP, ∃ ids, get_source_id db q.2 = some ids ∧ ids ≠ 0) :
    (row_inserts caps db b r).length
      = if row_resolves db b r then (present_measures r).length else 0 := by
  unfold row_inserts present_measures row_resolves
  dsimp only
  cases hb : (not_truthy (get_region_id db (region_code_of b r))
      || not_truthy (match r.date_heure with
        | some ts => get_time_id db ts
        | none => none)) with
  | true => simp
  | false =>
    have hfold := row_inserts_fold_length caps db r
      (match r.date_heure with
        | some ts => get_time_id db ts
        | none => none)
      (get_region_id db (region_code_of b r)) SOURCE_COLUMN_MAP hsrc
    simpa using hfold

/-- C9: `load_from_silver` returns `rows_loaded` equal to the number of
fact upserts executed, not the number of rows read — each input row
whose region and time resolve contributes one fact row per
`SOURCE_COLUMN_MAP` column that is present and non-null (up to 8), and
a row whose region or time does not resolve contributes nothing: the
call still returns `.ok` (no exception), the skip shows up only in the
lower count.  Hypotheses: the batch has its `date_heure` column (else
polars raises before the loop), the region pairs are non-null when the
region columns are present (else the DIM_REGION auto-population raises
IntegrityError), and DIM_SOURCE ids are non-zero (SQLite AUTOINCREMENT
starts at 1). -/
theorem rows_loaded_counts_inserts (parse_ok : String → Bool) (caps : List (String × ℚ))
    (db : GoldDB) (b : SilverBatch)
    (hwfS : sources_wf db)
    (hdate : b.has_date_col = true)
    (hpairs : (b.has_region_code_col && b.has_libelle_col) = true →
      ∀ q ∈ region_pairs b, q.1.isSome ∧ q.2.isSome) :
    (load_from_silver parse_ok caps db b).map Prod.snd
      = .ok (spec_rows_loaded (dims_after parse_ok db b) b) := by
  unfold load_from_silver
  by_cases hempty : b.rows.isEmpty
  · rw [if_pos hempty]
    have hnil : b.rows = [] := List.isEmpty_iff.1 hempty
    unfold spec_rows_loaded
    rw [hnil]
    rfl
  · rw [if_neg hempty]
    have hc2 : ¬(((b.has_region_code_col && b.has_libelle_col)
        && (region_pairs b).any (fun p => p.1.isNone || p.2.isNone)) = true) := by
      intro hcon
      simp only [Bool.and_eq_true] at hcon
      obtain ⟨hflags, hany⟩ := hcon
      obtain ⟨q, hq, hnone⟩ := List.any_eq_true.1 hany
      obtain ⟨h1, h2⟩ := hpairs (by rw [Bool.and_eq_true]; exact hflags) q hq
      simp only [Bool.or_eq_true] at hnone
      rcases hnone with h | h
      · rw [Option.isNone_iff_eq_none] at h
        rw [h] at h1
        simp at h1
      · rw [Option.isNone_iff_eq_none] at h
        rw [h] at h2
        simp at h2
    rw [if_neg hc2, if_neg (by simp [hdate])]
    dsimp only [Except.map]
    congr 1
    unfold fact_inserts spec_rows_loaded
    rw [List.length_flatMap]
    congr 1
    apply List.map_congr_left
    intro r _
    exact row_inserts_length caps _ b r (dims_after_source_resolves parse_ok db b hwfS)

/-- Witness for C9: the two-row batch `sb_witness` loads exactly 2 fact
rows — the first row fans out into its two present non-null measure
columns (eolien, gaz), the second row's timestamp does not resolve and
is skipped silently. -/
theorem rows_loaded_counts_inserts_witness :
    sources_wf empty_gold
    ∧ spec_rows_loaded (dims_after parse_ok_witness empty_gold sb_witness) sb_witness = 2
    ∧ (load_from_silver parse_ok_witness caps_witness empty_gold sb_witness).map Prod.snd
        = .ok (spec_rows_loaded (dims_after parse_ok_witness empty_gold sb_witness) sb_witness) :=
  ⟨by decide, by decide,
   rows_loaded_counts_inserts parse_ok_witness caps_witness empty_gold sb_witness
     (by decide) (by decide) (by decide)⟩

theorem upsert_region_codes_mono (db : GoldDB) (q : String × String) (c : String)
    (h : c ∈ region_codes db) : c ∈ region_codes (upsert_region db q) := by
  unfold upsert_region
  cases db.regions.find? (fun r => r.code_insee = q.1) with
  | some r0 =>
    dsimp only [region_codes] at h ⊢
    obtain ⟨r, hr, hrc⟩ := List.mem_map.1 h
    refine List.mem_map.2 ⟨if r.code_insee = q.1 then { r with nom_region := q.2 } else r,
      List.mem_map.2 ⟨r, hr, rfl⟩, ?_⟩
    split <;> simp [hrc]
  | none =>
    dsimp only [region_codes]
    rw [List.map_append]
    exact List.mem_append_left _ h

theorem upsert_region_codes_self (db : GoldDB) (q : String × String) :
    q.1 ∈ region_codes (upsert_region db q) := by
  unfold upsert_region
  cases hf : db.regions.find? (fun r => r.code_insee = q.1) with
  | some r0 =>
    have hr0 : r0.code_insee = q.1 := by simpa using List.find?_some hf
    dsimp only [region_codes]
    refine List.mem_map.2
      ⟨if r0.code_insee = q.1 then { r0 with nom_region := q.2 } else r0,
       List.mem_map.2 ⟨r0, List.mem_of_find?_eq_some hf, rfl⟩, ?_⟩
    rw [if_pos hr0]
    simpa using hr0
  | none =>
    dsimp only [region_codes]
    rw [List.map_append]
    exact List.mem_append_right _ (by simp)

theorem region_fold_codes_mono :
    ∀ (l : List (String × String)) (db : GoldDB) (c : String),
      c ∈ region_codes db → c ∈ region_codes (l.foldl upsert_region db) := by
  intro l
  induction l with
  | nil => intro db c h; exact h
  | cons q rest ih =>
    intro db c h
    exact ih _ c (upsert_region_codes_mono db q c h)

theorem region_fold_codes_self :
    ∀ (l : List (String × String)) (db : GoldDB) (q : String × String),
      q ∈ l → q.1 ∈ region_codes (l.foldl upsert_region db) := by
  intro l
  induction l with
  | nil => intro db q h; exact absurd h (List.not_mem_nil q)
  | cons q0 rest ih =>
    intro db q h
    rcases List.mem_cons.1 h with h | h
    · subst h
      exact region_fold_codes_mono rest _ _ (upsert_region_codes_self db q)
    · exact ih _ q h

theorem upsert_region_keys_of_present (db : GoldDB) (q : String × String)
    (h : q.1 ∈ region_codes db) :
    region_keys (upsert_region db q) = region_keys db := by
  unfold upsert_region
  cases hf : db.regions.find? (fun r => r.code_insee = q.1) with
  | some r0 =>
    dsimp only [region_keys]
    rw [List.map_map]
    apply List.map_congr_left
    intro r _
    dsimp only [Function.comp]
    split <;> rfl
  | none =>
    exfalso
    obtain ⟨r, hr, hrc⟩ := List.mem_map.1 h
    have := List.find?_eq_none.1 hf r hr
    simp [hrc] at this

theorem region_fold_keys_of_present :
    ∀ (l : List (String × String)) (db : GoldDB),
      (∀ q ∈ l, q.1 ∈ region_codes db) →
      region_keys (l.foldl upsert_region db) = region_keys db := by
  intro l
  induction l with
  | nil => intro db _; rfl
  | cons q rest ih =>
    intro db h
    have hq := h q (List.mem_cons_self q rest)
    have hkeys := upsert_region_keys_of_present db q hq
    have hcodes : region_codes (upsert_region db q) = region_codes db := by
      unfold region_codes
      unfold region_keys at hkeys
      have := congrArg (List.map Prod.snd) hkeys
      simpa [List.map_map, Function.comp] using this
    rw [List.foldl_cons, ih _ (fun x hx => by
      rw [hcodes]; exact h x (List.mem_cons_of_mem q hx)), hkeys]

theorem upsert_time_stamps_mono (parse_ok : String → Bool) (db : GoldDB) (ts c : String)
    (h : c ∈ time_stamps db) : c ∈ time_stamps (upsert_time parse_ok db ts) := by
  unfold upsert_time
  split
  · cases db.times.find? (fun t => t.horodatage = ts) with
    | some t0 => exact h
    | none =>
      dsimp only [time_stamps]
      rw [List.map_append]
      exact List.mem_append_left _ h
  · exact h

theorem upsert_time_stamps_self (parse_ok : String → Bool) (db : GoldDB) (ts : String)
    (hok : parse_ok ts = true) : ts ∈ time_stamps (upsert_time parse_ok db ts) := by
  unfold upsert_time
  rw [if_pos hok]
  cases hf : db.times.find? (fun t => t.horodatage = ts) with
  | some t0 =>
    have ht0 : t0.horodatage = ts := by simpa using List.find?_some hf
    exact List.mem_map.2 ⟨t0, List.mem_of_find?_eq_some hf, ht0⟩
  | none =>
    dsimp only [time_stamps]
    rw [List.map_append]
    exact List.mem_append_right _ (by simp)

theorem time_fold_stamps_mono (parse_ok : String → Bool) :
    ∀ (l : List (Option String)) (db : GoldDB) (ts : String),
      ts ∈ time_stamps db →
      ts ∈ time_stamps (l.foldl (fun d o => match o with
        | some ts => upsert_time parse_ok d ts
        | none => d) db) := by
  intro l
  induction l with
  | nil => intro db ts h; exact h
  | cons o rest ih =>
    intro db ts h
    dsimp only [List.foldl_cons]
    cases o with
    | none => exact ih db ts h
    | some ts2 => exact ih _ ts (upsert_time_stamps_mono parse_ok db ts2 ts h)

theorem time_fold_stamps_self (parse_ok : String → Bool) :
    ∀ (l : List (Option String)) (db : GoldDB) (ts : String),
      some ts ∈ l → parse_ok ts = true →
      ts ∈ time_stamps (l.foldl (fun d o => match o with
        | some ts => upsert_time parse_ok d ts
        | none => d) db) := by
  intro l
  induction l with
  | nil => intro db ts h _; exact absurd h (List.not_mem_nil _)
  | cons o rest ih =>
    intro db ts h hok
    rcases List.mem_cons.1 h with h | h
    · subst h
      dsimp only [List.foldl_cons]
      exact time_fold_stamps_mono parse_ok rest _ ts
        (upsert_time_stamps_self parse_ok db ts hok)
    · exact ih _ ts h hok

theorem time_fold_identity (parse_ok : String → Bool) :
    ∀ (l : List (Option String)) (db : GoldDB),
      (∀ o ∈ l, ∀ ts, o = some ts → parse_ok ts = true → ts ∈ time_stamps db) →
      l.foldl (fun d o => match o with
        | some ts => upsert_time parse_ok d ts
        | none => d) db = db := by
  intro l
  induction l with
  | nil => intro db _; rfl
  | cons o rest ih =>
    intro db h
    dsimp only [List.foldl_cons]
    cases o with
    | none => exact ih db (fun o ho => h o (List.mem_cons_of_mem _ ho))
    | some ts =>
      have hstep : upsert_time parse_ok db ts = db := by
        unfold upsert_time
        split
        next hok =>
          cases hf : db.times.find? (fun t => t.horodatage = ts) with
          | some t0 => rfl
          | none =>
            exfalso
            have hts := h (some ts) (List.mem_cons_self _ _) ts rfl hok
            obtain ⟨t, ht, htc⟩ := List.mem_map.1 hts
            have := List.find?_eq_none.1 hf t ht
            simp [htc] at this
        next => rfl
      show (rest.foldl (fun d o => match o with
        | some ts => upsert_time parse_ok d ts
        | none => d) (upsert_time parse_ok db ts)) = db
      rw [hstep]
      exact ih db (fun o ho => h o (List.mem_cons_of_mem _ ho))

theorem upsert_source_keys_of_present (db : GoldDB) (q : String × Bool)
    (h : q.1 ∈ source_names db) :
    source_keys (upsert_source db q) = source_keys db := by
  unfold upsert_source
  cases hf : db.sources.find? (fun s => s.source_name = q.1) with
  | some s0 =>
    dsimp only [source_keys]
    rw [List.map_map]
    apply List.map_congr_left
    intro s _
    dsimp only [Function.comp]
    split <;> rfl
  | none =>
    exfalso
    obtain ⟨s, hs, hsn⟩ := List.mem_map.1 h
    have := List.find?_eq_none.1 hf s hs
    simp [hsn] at this

theorem source_fold_keys_of_present :
    ∀ (cat : List (String × Bool)) (db : GoldDB),
      (∀ q ∈ cat, q.1 ∈ source_names db) →
      source_keys (cat.foldl upsert_source db) = source_keys db := by
  intro cat
  induction cat with
  | nil => intro db _; rfl
  | cons q rest ih =>
    intro db h
    have hq := h q (List.mem_cons_self q rest)
    have hkeys := upsert_source_keys_of_present db q hq
    have hnames : source_names (upsert_source db q) = source_names db := by
      unfold source_names
      unfold source_keys at hkeys
      have := congrArg (List.map Prod.snd) hkeys
      simpa [List.map_map, Function.comp] using this
    rw [List.foldl_cons, ih _ (fun x hx => by
      rw [hnames]; exact h x (List.mem_cons_of_mem q hx)), hkeys]

theorem upsert_source_keeps_rtf (db : GoldDB) (q : String × Bool) :
    (upsert_source db q).regions = db.regions
    ∧ (upsert_source db q).times = db.times
    ∧ (upsert_source db q).facts = db.facts := by
  unfold upsert_source
  cases db.sources.find? (fun s => s.source_name = q.1) <;> exact ⟨rfl, rfl, rfl⟩

theorem upsert_sources_keeps_rtf (db : GoldDB) :
    (upsert_sources db).regions = db.regions
    ∧ (upsert_sources db).times = db.times
    ∧ (upsert_sources db).facts = db.facts := by
  unfold upsert_sources
  generalize default_source_catalog = cat
  induction cat generalizing db with
  | nil => exact ⟨rfl, rfl, rfl⟩
  | cons q rest ih =>
    dsimp only [List.foldl_cons]
    obtain ⟨h1, h2, h3⟩ := ih (upsert_source db q)
    obtain ⟨h4, h5, h6⟩ := upsert_source_keeps_rtf db q
    exact ⟨h1.trans h4, h2.trans h5, h3.trans h6⟩

theorem upsert_region_keeps_tf (db : GoldDB) (q : String × String) :
    (upsert_region db q).times = db.times ∧ (upsert_region db q).facts = db.facts := by
  unfold upsert_region
  cases db.regions.find? (fun r => r.code_insee = q.1) <;> exact ⟨rfl, rfl⟩

theorem region_fold_keeps_tf :
    ∀ (l : List (String × String)) (db : GoldDB),
      (l.foldl upsert_region db).times = db.times
      ∧ (l.foldl upsert_region db).facts = db.facts := by
  intro l
  induction l with
  | nil => intro db; exact ⟨rfl, rfl⟩
  | cons q rest ih =>
    intro db
    obtain ⟨h1, h2⟩ := ih (upsert_region db q)
    obtain ⟨h3, h4⟩ := upsert_region_keeps_tf db q
    exact ⟨h1.trans h3, h2.trans h4⟩

theorem upsert_time_keeps_rf (parse_ok : String → Bool) (db : GoldDB) (ts : String) :
    (upsert_time parse_ok db ts).regions = db.regions
    ∧ (upsert_time parse_ok db ts).facts = db.facts := by
  unfold upsert_time
  split
  · cases db.times.find? (fun t => t.horodatage = ts) <;> exact ⟨rfl, rfl⟩
  · exact ⟨rfl, rfl⟩

theorem time_fold_keeps_rf (parse_ok : String → Bool) :
    ∀ (l : List (Option String)) (db : GoldDB),
      ((l.foldl (fun d o => match o with
        | some ts => upsert_time parse_ok d ts
        | none => d) db).regions = db.regions
      ∧ (l.foldl (fun d o => match o with
        | some ts => upsert_time parse_ok d ts
        | none => d) db).facts = db.facts) := by
  intro l
  induction l with
  | nil => intro db; exact ⟨rfl, rfl⟩
  | cons o rest ih =>
    intro db
    cases o with
    | none => exact ih db
    | some ts =>
      obtain ⟨h1, h2⟩ := ih (upsert_time parse_ok db ts)
      obtain ⟨h3, h4⟩ := upsert_time_keeps_rf parse_ok db ts
      exact ⟨h1.trans h3, h2.trans h4⟩

theorem dims_after_facts (parse_ok : String → Bool) (db : GoldDB) (b : SilverBatch) :
    (dims_after parse_ok db b).facts = db.facts := by
  unfold dims_after
  dsimp only
  split
  · split
    · unfold upsert_times_from
      exact ((time_fold_keeps_rf parse_ok (ts_values b) _).2).trans
        (((region_fold_keeps_tf (clean_region_pairs b) _).2).trans
          (upsert_sources_keeps_rtf db).2.2)
    · unfold upsert_times_from
      exact ((time_fold_keeps_rf parse_ok (ts_values b) _).2).trans
        (upsert_sources_keeps_rtf db).2.2
  · split
    · exact ((region_fold_keeps_tf (clean_region_pairs b) _).2).trans
        (upsert_sources_keeps_rtf db).2.2
    · exact (upsert_sources_keeps_rtf db).2.2

theorem find_proj_eq {ρ : Type} (key : ρ → String) (val : ρ → Nat) (c : String) :
    ∀ (l1 l2 : List ρ), l1.map (fun r => (val r, key r)) = l2.map (fun r => (val r, key r)) →
      (l1.find? (fun r => key r = c)).map val = (l2.find? (fun r => key r = c)).map val := by
  intro l1
  induction l1 with
  | nil =>
    intro l2 h
    cases l2 with
    | nil => rfl
    | cons r2 t2 => simp at h
  | cons r1 t1 ih =>
    intro l2 h
    cases l2 with
    | nil => simp at h
    | cons r2 t2 =>
      simp only [List.map_cons, List.cons.injEq] at h
      obtain ⟨hhead, htail⟩ := h
      have hval : val r1 = val r2 := congrArg Prod.fst hhead
      have hkey : key r1 = key r2 := congrArg Prod.snd hhead
      simp only [List.find?_cons]
      by_cases hc : key r1 = c
      · rw [decide_eq_true hc, decide_eq_true (hkey ▸ hc)]
        simpa using hval
      · rw [decide_eq_false hc, decide_eq_false (hkey ▸ hc)]
        exact ih t2 htail

theorem get_region_id_congr (d1 d2 : GoldDB) (h : region_keys d1 = region_keys d2)
    (c : String) : get_region_id d1 c = get_region_id d2 c := by
  unfold region_keys at h
  exact find_proj_eq (fun r => r.code_insee) (fun r => r.id_region) c d1.regions d2.regions h

theorem get_time_id_congr (d1 d2 : GoldDB) (h : time_keys d1 = time_keys d2)
    (ts : String) : get_time_id d1 ts = get_time_id d2 ts := by
  unfold time_keys at h
  exact find_proj_eq (fun t => t.horodatage) (fun t => t.id_date) ts d1.times d2.times h

theorem get_source_id_congr (d1 d2 : GoldDB) (h : source_keys d1 = source_keys d2)
    (n : String) : get_source_id d1 n = get_source_id d2 n := by
  unfold source_keys at h
  exact find_proj_eq (fun s => s.source_name) (fun s => s.id_source) n d1.sources d2.sources h

theorem region_keys_congr {d1 d2 : GoldDB} (h : d1.regions = d2.regions) :
    region_keys d1 = region_keys d2 := by
  unfold region_keys; rw [h]

theorem time_keys_congr {d1 d2 : GoldDB} (h : d1.times = d2.times) :
    time_keys d1 = time_keys d2 := by
  unfold time_keys; rw [h]

theorem source_keys_congr {d1 d2 : GoldDB} (h : d1.sources = d2.sources) :
    source_keys d1 = source_keys d2 := by
  unfold source_keys; rw [h]

theorem region_codes_congr {d1 d2 : GoldDB} (h : d1.regions = d2.regions) :
    region_codes d1 = region_codes d2 := by
  unfold region_codes; rw [h]

theorem time_stamps_congr {d1 d2 : GoldDB} (h : d1.times = d2.times) :
    time_stamps d1 = time_stamps d2 := by
  unfold time_stamps; rw [h]

theorem source_names_congr {d1 d2 : GoldDB} (h : d1.sources = d2.sources) :
    source_names d1 = source_names d2 := by
  unfold source_names; rw [h]

theorem dims_after_catalog_names (parse_ok : String → Bool) (db : GoldDB) (b : SilverBatch) :
    ∀ q ∈ default_source_catalog, q.1 ∈ source_names (dims_after parse_ok db b) := by
  intro q hq
  obtain ⟨hsrc, _⟩ := dims_after_sources parse_ok db b
  have hmem : q.1 ∈ source_names (upsert_sources db) := by
    unfold upsert_sources
    exact mem_source_names_fold default_source_catalog db q.1 (List.mem_map.2 ⟨q, hq, rfl⟩)
  rw [source_names_congr hsrc]
  exact hmem

theorem dims_after_region_codes (parse_ok : String → Bool) (db : GoldDB) (b : SilverBatch)
    (hg : (b.has_region_code_col && b.has_libelle_col) = true) :
    ∀ q ∈ clean_region_pairs b, q.1 ∈ region_codes (dims_after parse_ok db b) := by
  intro q hq
  unfold dims_after
  dsimp only
  rw [if_pos hg]
  have hbase : q.1 ∈ region_codes
      ((clean_region_pairs b).foldl upsert_region (upsert_sources db)) :=
    region_fold_codes_self (clean_region_pairs b) (upsert_sources db) q hq
  by_cases hd : b.has_date_col = true
  · rw [if_pos hd]
    unfold upsert_times_from
    rw [region_codes_congr (time_fold_keeps_rf parse_ok (ts_values b) _).1]
    exact hbase
  · rw [if_neg hd]
    exact hbase

theorem dims_after_time_stamps (parse_ok : String → Bool) (db : GoldDB) (b : SilverBatch)
    (hd : b.has_date_col = true) :
    ∀ o ∈ ts_values b, ∀ ts, o = some ts → parse_ok ts = true →
      ts ∈ time_stamps (dims_after parse_ok db b) := by
  intro o ho ts hots hok
  subst hots
  unfold dims_after
  dsimp only
  rw [if_pos hd]
  unfold upsert_times_from
  exact time_fold_stamps_self parse_ok (ts_values b) _ ts ho hok

theorem dims_after_keys_of_present (parse_ok : String → Bool) (db : GoldDB) (b : SilverBatch)
    (hsrc : ∀ q ∈ default_source_catalog, q.1 ∈ source_names db)
    (hreg : (b.has_region_code_col && b.has_libelle_col) = true →
      ∀ q ∈ clean_region_pairs b, q.1 ∈ region_codes db)
    (htime : ∀ o ∈ ts_values b, ∀ ts, o = some ts → parse_ok ts = true →
      ts ∈ time_stamps db) :
    region_keys (dims_after parse_ok db b) = region_keys db
    ∧ time_keys (dims_after parse_ok db b) = time_keys db
    ∧ source_keys (dims_after parse_ok db b) = source_keys db := by
  have hks : source_keys (upsert_sources db) = source_keys db := by
    unfold upsert_sources
    exact source_fold_keys_of_present default_source_catalog db hsrc
  obtain ⟨hr0, ht0, _⟩ := upsert_sources_keeps_rtf db
  unfold dims_after
  dsimp only
  by_cases hg : (b.has_region_code_col && b.has_libelle_col) = true
  · rw [if_pos hg]
    have hcodes : ∀ q ∈ clean_region_pairs b, q.1 ∈ region_codes (upsert_sources db) := by
      intro q hq
      rw [region_codes_congr hr0]
      exact hreg hg q hq
    have hrk : region_keys ((clean_region_pairs b).foldl upsert_region (upsert_sources db))
        = region_keys (upsert_sources db) :=
      region_fold_keys_of_present (clean_region_pairs b) (upsert_sources db) hcodes
    obtain ⟨htP, _⟩ := region_fold_keeps_tf (clean_region_pairs b) (upsert_sources db)
    obtain ⟨hsP, _⟩ := region_fold_keeps_sources (clean_region_pairs b) (upsert_sources db)
    by_cases hd : b.has_date_col = true
    · rw [if_pos hd]
      unfold upsert_times_from
      rw [time_fold_identity parse_ok (ts_values b) _ (by
        intro o ho ts hots hok
        rw [time_stamps_congr htP, time_stamps_congr ht0]
        exact htime o ho ts hots hok)]
      exact ⟨hrk.trans (region_keys_congr hr0),
        (time_keys_congr htP).trans (time_keys_congr ht0),
        (source_keys_congr hsP).trans hks⟩
    · rw [if_neg hd]
      exact ⟨hrk.trans (region_keys_congr hr0),
        (time_keys_congr htP).trans (time_keys_congr ht0),
        (source_keys_congr hsP).trans hks⟩
  · rw [if_neg hg]
    by_cases hd : b.has_date_col = true
    · rw [if_pos hd]
      unfold upsert_times_from
      rw [time_fold_identity parse_ok (ts_values b) _ (by
        intro o ho ts hots hok
        rw [time_stamps_congr ht0]
        exact htime o ho ts hots hok)]
      exact ⟨region_keys_congr hr0, time_keys_congr ht0, hks⟩
    · rw [if_neg hd]
      exact ⟨region_keys_congr hr0, time_keys_congr ht0, hks⟩

theorem row_inserts_congr (caps : List (String × ℚ)) (d1 d2 : GoldDB) (b : SilverBatch)
    (r : SRow)
    (hR : ∀ c, get_region_id d1 c = get_region_id d2 c)
    (hT : ∀ ts, get_time_id d1 ts = get_time_id d2 ts)
    (hS : ∀ n, get_source_id d1 n = get_source_id d2 n) :
    row_inserts caps d1 b r = row_inserts caps d2 b r := by
  simp only [row_inserts]
  rw [hR (region_code_of b r)]
  have hT' : (match r.date_heure with
      | some ts => get_time_id d1 ts
      | none => none) = (match r.date_heure with
      | some ts => get_time_id d2 ts
      | none => none) := by
    cases r.date_heure with
    | none => rfl
    | some ts => exact hT ts
  rw [hT']
  have hfun : (fun (p : String × String) (acc : List FactInsert) =>
      match r.measures.lookup p.1 with
      | some (some v) =>
        (match get_source_id d1 p.2 with
         | some ids =>
           if ids = 0 then acc
           else
             { id_date := (match r.date_heure with
                 | some ts => get_time_id d2 ts
                 | none => none).getD 0
               id_region := (get_region_id d2 (region_code_of b r)).getD 0
               id_source := ids
               valeur_mw := v
               facteur_charge := facteur_of caps p.2 v
               temperature_moyenne := py_truthy_or r.temperature_c r.temperature_moyenne
               src_name := p.2 } :: acc
         | none => acc)
      | _ => acc) = (fun (p : String × String) (acc : List FactInsert) =>
      match r.measures.lookup p.1 with
      | some (some v) =>
        (match get_source_id d2 p.2 with
         | some ids =>
           if ids = 0 then acc
           else
             { id_date := (match r.date_heure with
                 | some ts => get_time_id d2 ts
                 | none => none).getD 0
               id_region := (get_region_id d2 (region_code_of b r)).getD 0
               id_source := ids
               valeur_mw := v
               facteur_charge := facteur_of caps p.2 v
               temperature_moyenne := py_truthy_or r.temperature_c r.temperature_moyenne
               src_name := p.2 } :: acc
         | none => acc)
      | _ => acc) := by
    funext p acc
    rw [hS p.2]
  rw [hfun]

theorem fact_inserts_congr (caps : List (String × ℚ)) (d1 d2 : GoldDB) (b : SilverBatch)
    (hR : ∀ c, get_region_id d1 c = get_region_id d2 c)
    (hT : ∀ ts, get_time_id d1 ts = get_time_id d2 ts)
    (hS : ∀ n, get_source_id d1 n = get_source_id d2 n) :
    fact_inserts caps d1 b = fact_inserts caps d2 b := by
  unfold fact_inserts
  have : row_inserts caps d1 b = row_inserts caps d2 b :=
    funext (fun r => row_inserts_congr caps d1 d2 b r hR hT hS)
  rw [this]

theorem any_fact_key_eq (facts : List FactRow) (k : Nat × Nat × Nat) :
    facts.any (fun f => decide (fact_key f = k)) = true ↔ k ∈ fact_keys facts := by
  rw [List.any_eq_true]
  constructor
  · rintro ⟨f, hf, hk⟩
    exact List.mem_map.2 ⟨f, hf, of_decide_eq_true hk⟩
  · intro hm
    obtain ⟨f, hf, hk⟩ := List.mem_map.1 hm
    exact ⟨f, hf, decide_eq_true hk⟩

theorem fact_keys_map_update (facts : List FactRow) (p : FactInsert) :
    fact_keys (facts.map (fun f =>
      if fact_key f = fact_key p.toFactRow then
        { f with
          valeur_mw := p.valeur_mw
          facteur_charge := p.facteur_charge
          temperature_moyenne := p.temperature_moyenne }
      else f)) = fact_keys facts := by
  unfold fact_keys
  rw [List.map_map]
  apply List.map_congr_left
  intro f _
  dsimp only [Function.comp]
  split <;> rfl

theorem upsert_fact_key_mem (facts : List FactRow) (p : FactInsert) :
    fact_key p.toFactRow ∈ fact_keys (upsert_fact facts p) := by
  unfold upsert_fact
  by_cases h : facts.any (fun f => decide (fact_key f = fact_key p.toFactRow)) = true
  · rw [if_pos h, fact_keys_map_update]
    exact (any_fact_key_eq facts _).1 h
  · rw [if_neg h]
    unfold fact_keys
    rw [List.map_append]
    exact List.mem_append_right _ (by simp)

theorem upsert_fact_keys_mono (facts : List FactRow) (p : FactInsert)
    (k : Nat × Nat × Nat) (hk : k ∈ fact_keys facts) :
    k ∈ fact_keys (upsert_fact facts p) := by
  unfold upsert_fact
  by_cases h : facts.any (fun f => decide (fact_key f = fact_key p.toFactRow)) = true
  · rw [if_pos h, fact_keys_map_update]
    exact hk
  · rw [if_neg h]
    unfold fact_keys at hk ⊢
    rw [List.map_append]
    exact List.mem_append_left _ hk

theorem fact_fold_keys_mono :
    ∀ (I : List FactInsert) (facts : List FactRow) (k : Nat × Nat × Nat),
      k ∈ fact_keys facts → k ∈ fact_keys (I.foldl upsert_fact facts) := by
  intro I
  induction I with
  | nil => intro facts k h; exact h
  | cons p rest ih =>
    intro facts k h
    exact ih _ k (upsert_fact_keys_mono facts p k h)

theorem fact_fold_keys_self :
    ∀ (I : List FactInsert) (facts : List FactRow) (p : FactInsert), p ∈ I →
      fact_key p.toFactRow ∈ fact_keys (I.foldl upsert_fact facts) := by
  intro I
  induction I with
  | nil => intro facts p h; exact absurd h (List.not_mem_nil p)
  | cons p0 rest ih =>
    intro facts p h
    rcases List.mem_cons.1 h with h | h
    · subst h
      exact fact_fold_keys_mono rest _ _ (upsert_fact_key_mem facts p)
    · exact ih _ p h

theorem upsert_fact_keys_of_present (facts : List FactRow) (p : FactInsert)
    (h : fact_key p.toFactRow ∈ fact_keys facts) :
    fact_keys (upsert_fact facts p) = fact_keys facts := by
  unfold upsert_fact
  rw [if_pos ((any_fact_key_eq facts _).2 h)]
  exact fact_keys_map_update facts p

theorem fact_fold_keys_of_present :
    ∀ (I : List FactInsert) (facts : List FactRow),
      (∀ p ∈ I, fact_key p.toFactRow ∈ fact_keys facts) →
      fact_keys (I.foldl upsert_fact facts) = fact_keys facts := by
  intro I
  induction I with
  | nil => intro facts _; rfl
  | cons p rest ih =>
    intro facts h
    have hp := h p (List.mem_cons_self p rest)
    have hkeys := upsert_fact_keys_of_present facts p hp
    rw [List.foldl_cons, ih _ (fun q hq => by
      rw [hkeys]; exact h q (List.mem_cons_of_mem p hq)), hkeys]

theorem upsert_fact_keys_nodup (facts : List FactRow) (p : FactInsert)
    (h : (fact_keys facts).Nodup) : (fact_keys (upsert_fact facts p)).Nodup := by
  unfold upsert_fact
  by_cases hc : facts.any (fun f => decide (fact_key f = fact_key p.toFactRow)) = true
  · rw [if_pos hc, fact_keys_map_update]
    exact h
  · rw [if_neg hc]
    unfold fact_keys at h ⊢
    rw [List.map_append, List.nodup_append]
    refine ⟨h, List.nodup_singleton _, ?_⟩
    intro k hk hk2
    simp only [List.map_cons, List.map_nil, List.mem_singleton] at hk2
    subst hk2
    exact hc ((any_fact_key_eq facts _).2 hk)

theorem fact_fold_keys_nodup :
    ∀ (I : List FactInsert) (facts : List FactRow),
      (fact_keys facts).Nodup → (fact_keys (I.foldl upsert_fact facts)).Nodup := by
  intro I
  induction I with
  | nil => intro facts h; exact h
  | cons p rest ih =>
    intro facts h
    exact ih _ (upsert_fact_keys_nodup facts p h)

theorem fact_keys_length (facts : List FactRow) :
    (fact_keys facts).length = facts.length :=
  List.length_map facts fact_key

theorem load_ok_main (parse_ok : String → Bool) (caps : List (String × ℚ))
    (db : GoldDB) (b : SilverBatch) (db' : GoldDB) (n : Nat)
    (h : load_from_silver parse_ok caps db b = .ok (db', n))
    (hemp : ¬ b.rows.isEmpty = true) :
    db'.regions = (dims_after parse_ok db b).regions
    ∧ db'.times = (dims_after parse_ok db b).times
    ∧ db'.sources = (dims_after parse_ok db b).sources
    ∧ db'.facts = (fact_inserts caps (dims_after parse_ok db b) b).foldl
        upsert_fact (dims_after parse_ok db b).facts
    ∧ n = (fact_inserts caps (dims_after parse_ok db b) b).length
    ∧ b.has_date_col = true := by
  unfold load_from_silver at h
  rw [if_neg hemp] at h
  by_cases herr : ((b.has_region_code_col && b.has_libelle_col) &&
      (region_pairs b).any (fun p => p.1.isNone || p.2.isNone)) = true
  · rw [if_pos herr] at h
    simp at h
  · rw [if_neg herr] at h
    by_cases hdate : b.has_date_col = true
    · have hnd : ¬((!b.has_date_col) = true) := by simp [hdate]
      rw [if_neg hnd] at h
      simp only [Except.ok.injEq, Prod.mk.injEq] at h
      obtain ⟨hdb, hn⟩ := h
      refine ⟨?_, ?_, ?_, ?_, hn.symm, hdate⟩
      · rw [← hdb]
      · rw [← hdb]
      · rw [← hdb]
      · rw [← hdb]
    · have hfalse : b.has_date_col = false := by
        cases hbv : b.has_date_col
        · rfl
        · exact absurd hbv hdate
      rw [if_pos (by rw [hfalse]; rfl)] at h
      simp at h

/-- C1: `load_from_silver` is an idempotent upsert keyed by the composite
`(id_date, id_region, id_source)`: re-running it on the identical Silver batch
returns the same `rows_loaded` count, leaves the fact-table row count
unchanged, touches only composite keys already present after the first run
(overwriting their measures rather than inserting), and — provided the fact
table started with no duplicate composite key, as the `UNIQUE` constraint
guarantees — the first run introduces no duplicate either. -/
theorem load_from_silver_idempotent (parse_ok : String → Bool)
    (caps : List (String × ℚ)) (db db1 db2 : GoldDB) (b : SilverBatch)
    (n1 n2 : Nat)
    (h1 : load_from_silver parse_ok caps db b = .ok (db1, n1))
    (h2 : load_from_silver parse_ok caps db1 b = .ok (db2, n2)) :
    n2 = n1 ∧ db2.facts.length = db1.facts.length
    ∧ fact_keys db2.facts = fact_keys db1.facts
    ∧ ((fact_keys db.facts).Nodup → (fact_keys db1.facts).Nodup) := by
  by_cases hemp : b.rows.isEmpty = true
  · unfold load_from_silver at h1 h2
    rw [if_pos hemp] at h1 h2
    simp only [Except.ok.injEq, Prod.mk.injEq] at h1 h2
    obtain ⟨hdb1, hn1⟩ := h1
    subst hdb1
    subst hn1
    obtain ⟨hdb2, hn2⟩ := h2
    subst hdb2
    subst hn2
    exact ⟨rfl, rfl, rfl, id⟩
  · obtain ⟨hr1, ht1, hs1, hf1, hn1, hdate⟩ := load_ok_main parse_ok caps db b db1 n1 h1 hemp
    obtain ⟨hr2, ht2, hs2, hf2, hn2, _⟩ := load_ok_main parse_ok caps db1 b db2 n2 h2 hemp
    have hsrc1 : ∀ q ∈ default_source_catalog, q.1 ∈ source_names db1 := by
      intro q hq
      rw [source_names_congr hs1]
      exact dims_after_catalog_names parse_ok db b q hq
    have hreg1 : (b.has_region_code_col && b.has_libelle_col) = true →
        ∀ q ∈ clean_region_pairs b, q.1 ∈ region_codes db1 := by
      intro hg q hq
      rw [region_codes_congr hr1]
      exact dims_after_region_codes parse_ok db b hg q hq
    have htime1 : ∀ o ∈ ts_values b, ∀ ts, o = some ts → parse_ok ts = true →
        ts ∈ time_stamps db1 := by
      intro o ho ts hots hok
      rw [time_stamps_congr ht1]
      exact dims_after_time_stamps parse_ok db b hdate o ho ts hots hok
    obtain ⟨hRk, hTk, hSk⟩ := dims_after_keys_of_present parse_ok db1 b hsrc1 hreg1 htime1
    have hRk' : region_keys (dims_after parse_ok db1 b)
        = region_keys (dims_after parse_ok db b) := hRk.trans (region_keys_congr hr1)
    have hTk' : time_keys (dims_after parse_ok db1 b)
        = time_keys (dims_after parse_ok db b) := hTk.trans (time_keys_congr ht1)
    have hSk' : source_keys (dims_after parse_ok db1 b)
        = source_keys (dims_after parse_ok db b) := hSk.trans (source_keys_congr hs1)
    have hI : fact_inserts caps (dims_after parse_ok db1 b) b
        = fact_inserts caps (dims_after parse_ok db b) b :=
      fact_inserts_congr caps _ _ b
        (fun c => get_region_id_congr _ _ hRk' c)
        (fun ts => get_time_id_congr _ _ hTk' ts)
        (fun nm => get_source_id_congr _ _ hSk' nm)
    have hpres : ∀ p ∈ fact_inserts caps (dims_after parse_ok db b) b,
        fact_key p.toFactRow ∈ fact_keys db1.facts := by
      intro p hp
      rw [hf1]
      exact fact_fold_keys_self _ _ p hp
    have hdb2facts : db2.facts
        = (fact_inserts caps (dims_after parse_ok db b) b).foldl upsert_fact db1.facts := by
      rw [hf2, hI, dims_after_facts parse_ok db1 b]
    have hkeys : fact_keys db2.facts = fact_keys db1.facts := by
      rw [hdb2facts]
      exact fact_fold_keys_of_present _ _ hpres
    refine ⟨?_, ?_, hkeys, ?_⟩
    · rw [hn2, hn1, hI]
    · rw [← fact_keys_length, ← fact_keys_length, hkeys]
    · intro hnd
      rw [hf1]
      apply fact_fold_keys_nodup
      rw [dims_after_facts parse_ok db b]
      exact hnd

theorem load_from_silver_idempotent_witness :
    run2w.2 = run1w.2 ∧ run2w.1.facts.length = run1w.1.facts.length
    ∧ fact_keys run2w.1.facts = fact_keys run1w.1.facts
    ∧ ((fact_keys empty_gold.facts).Nodup → (fact_keys run1w.1.facts).Nodup) :=
  load_from_silver_idempotent parse_ok_witness caps_witness empty_gold run1w.1 run2w.1
    sb_witness run1w.2 run2w.2 (by rfl) (by rfl)
